import Mathlib

/-!
# logspout-gelf: the GELF adapter (`gelf.go`)

A shallow embedding of the adapter's per-record pipeline:

* `GelfMessage.getExtraFields` (source lines 128-158), the field enricher;
* the body of `GelfAdapter.Stream` (source lines 84-122), the message
  construction and the consume loop;
* `fromRancherMetadata` and `init` (source lines 23-56), the startup resolution
  of the host and environment names;
* `NewGelfAdapter` (source lines 66-81), the constructor of the adapter.

Go strings are byte sequences, so they are modelled as lists of byte values and
slicing is modelled with its bounds check: an out-of-range slice expression is a
runtime panic, which ends the process.  Go maps are modelled as association
lists with unique keys; the order in which `range` visits a map is the order of
the list that represents it.  An `int64` computation wraps around modulo
`2 ^ 64`, and a `float64` computation yields the binary64 value nearest to its
exact result.
-/

namespace Gelf

/-! ## Go values -/

/-- A Go string: an immutable sequence of bytes. -/
abbrev GoString := List Nat

/-- The bytes of a string literal of the program (Go source is UTF-8). -/
def str (s : String) : GoString := s.toUTF8.data.toList.map UInt8.toNat

/-- Result of evaluating a Go call that returns `(value, error)` and that may
also abort with a runtime panic. -/
inductive Outcome (α : Type) where
  | ok (a : α)
  | error (e : GoString)
  | panic
  deriving DecidableEq, Repr

/-- The slice expression `s[i:]`: `none` stands for the runtime panic
"slice bounds out of range", raised unless `i <= len(s)`. -/
def sliceFrom (s : GoString) (i : Nat) : Option GoString :=
  if i ≤ s.length then some (s.drop i) else none

/-- The slice expression `s[i:j]`: `none` stands for the runtime panic, raised
unless `i <= j <= len(s)`. -/
def slice (s : GoString) (i j : Nat) : Option GoString :=
  if i ≤ j ∧ j ≤ s.length then some ((s.take j).drop i) else none

/-- Whether every byte is below `utf8.RuneSelf`. -/
def isASCII (s : GoString) : Bool := s.all (fun c => decide (c < 128))

/-- ASCII lower-casing of one byte: `'A'..'Z'` move to `'a'..'z'`. -/
def lowerByte (c : Nat) : Nat := if 65 ≤ c ∧ c ≤ 90 then c + 32 else c

/-- The library function `strings.ToLower`.  On an ASCII-only string it
lower-cases byte by byte; otherwise it maps `unicode.ToLower` over the runes,
which depends on the Unicode case tables and is taken as the parameter
`unicodeLower`. -/
def ToLower (unicodeLower : GoString → GoString) (s : GoString) : GoString :=
  if isASCII s then s.map lowerByte else unicodeLower s

/-- The library function `strings.Join`. -/
def Join (elems : List GoString) (sep : GoString) : GoString :=
  sep.intercalate elems

/-- A `time.Time`, given by the number of nanoseconds from the Unix epoch to it,
negative before the epoch.  The number is not bounded: a `time.Time` reaches
far beyond the years an `int64` of nanoseconds can hold. -/
structure Time where
  nanos : Int
  deriving DecidableEq, Repr

/-- The value of an `int64` computation whose exact result is `x`: the result
wraps around modulo `2 ^ 64` into the range from `-2 ^ 63` to `2 ^ 63 - 1`. -/
def wrapInt64 (x : Int) : Int :=
  (x + 9223372036854775808) % 18446744073709551616 - 9223372036854775808

/-- The method `Time.UnixNano`, which computes the count of nanoseconds since
the epoch in `int64` arithmetic: outside the years 1678 to 2262 the count does
not fit and the result is the wrapped count. -/
def Time.UnixNano (t : Time) : Int := wrapInt64 t.nanos

/-- The dynamic values stored in the `map[string]interface{}` of extra fields:
strings, and the container's creation time. -/
inductive Value where
  | str (s : GoString)
  | time (t : Time)
  deriving DecidableEq, Repr

/-- A `map[string]interface{}`: keys are unique. -/
abbrev Fields := List (GoString × Value)

/-- Map lookup. -/
def mapGet : Fields → GoString → Option Value
  | [], _ => none
  | (k, v) :: rest, key => if k = key then some v else mapGet rest key

/-- Map assignment `m[key] = v`: replaces the value of an existing key, adds the
key otherwise. -/
def mapSet : Fields → GoString → Value → Fields
  | [], key, v => [(key, v)]
  | (k, w) :: rest, key, v =>
    if k = key then (key, v) :: rest else (k, w) :: mapSet rest key v

/-- The keys of a map. -/
def mapKeys (m : Fields) : List GoString := m.map Prod.fst

/-- A `map[string]string` of container labels, in the order `range` visits it. -/
abbrev Labels := List (GoString × GoString)

/-- Label lookup `labels[key]`: the zero value `""` when the key is absent. -/
def labelGet : Labels → GoString → GoString
  | [], _ => []
  | (k, v) :: rest, key => if k = key then v else labelGet rest key

/-! ## The records of the router and of the Docker client -/

/-- The type `docker.SwarmNode`, of which only the name is read. -/
structure docker.SwarmNode where
  Name : GoString
  deriving DecidableEq, Repr

/-- The type `docker.Config`, restricted to the fields the adapter reads. -/
structure docker.Config where
  Image : GoString
  Cmd : List GoString
  Labels : Labels
  deriving DecidableEq, Repr

/-- The type `docker.Container`, restricted to the fields the adapter reads.
`Node` is a pointer the adapter tests against `nil`. -/
structure docker.Container where
  ID : GoString
  Name : GoString
  Image : GoString
  Config : docker.Config
  Created : Time
  Node : Option docker.SwarmNode
  deriving DecidableEq, Repr

/-- The type `router.Message`: one log record.  The router sends no `nil`
record and always attaches the container and its configuration, all of which
the adapter dereferences unchecked. -/
structure router.Message where
  Container : docker.Container
  Source : GoString
  Data : GoString
  Time : Time
  deriving DecidableEq, Repr

/-- What the adapter reads from its process: the package variables `hostname`
and `rancherEnvironment` set by `init`, the value `os.Hostname()` returns (its
error is ignored), the Unicode branch of `strings.ToLower`, and
`json.Marshal` on the map of extra fields. -/
structure Env where
  hostname : GoString
  rancherEnvironment : GoString
  osHostname : GoString
  unicodeLower : GoString → GoString
  Marshal : Fields → Except GoString (List Nat)

/-! ## `GelfMessage.getExtraFields` -/

/-- The test of source line 144, `len(name) > 5 &&
strings.ToLower(name[0:5]) == "gelf_"`, with its slice; `none` is a panic. -/
def labelTest (env : Env) (name : GoString) : Option Bool :=
  if name.length > 5 then
    match slice name 0 5 with
    | none => none
    | some p => some (decide (ToLower env.unicodeLower p = str "gelf_"))
  else some false

/-- One iteration of the loop of source lines 143-147. -/
def labelStep (env : Env) (extra : Fields) (name label : GoString) : Option Fields :=
  match labelTest env name with
  | none => none
  | some false => some extra
  | some true =>
    match sliceFrom name 4 with
    | none => none
    | some key => some (mapSet extra key (Value.str label))

/-- The loop `for name, label := range m.Container.Config.Labels`. -/
def labelLoop (env : Env) : Labels → Fields → Option Fields
  | [], extra => some extra
  | (name, label) :: rest, extra =>
    match labelStep env extra name label with
    | none => none
    | some extra1 => labelLoop env rest extra1

/-- The map literal of source lines 130-142, given the already sliced name. -/
def coreFields (env : Env) (m : router.Message) (name : GoString) : Fields :=
  [ (str "_container_id", Value.str m.Container.ID),
    (str "_container_name", Value.str name),
    (str "_image_id", Value.str m.Container.Image),
    (str "_image_name", Value.str m.Container.Config.Image),
    (str "_command", Value.str (Join m.Container.Config.Cmd (str " "))),
    (str "_created", Value.time m.Container.Created),
    (str "_rancher_stack_service",
      Value.str (labelGet m.Container.Config.Labels (str "io.rancher.stack_service.name"))),
    (str "_rancher_host", Value.str env.hostname),
    (str "_rancher_environment", Value.str env.rancherEnvironment),
    (str "_logspout_instance", Value.str env.osHostname),
    (str "_logspout_source", Value.str m.Source) ]

/-- The map `extra` as it stands at source line 152, before it is serialised;
`none` is a runtime panic. -/
def extraFields (env : Env) (m : router.Message) : Option Fields :=
  match sliceFrom m.Container.Name 1 with
  | none => none
  | some name =>
    match labelLoop env m.Container.Config.Labels (coreFields env m name) with
    | none => none
    | some extra =>
      match m.Container.Node with
      | some swarmnode => some (mapSet extra (str "_swarm_node") (Value.str swarmnode.Name))
      | none => some extra

/-- The method `GelfMessage.getExtraFields`: the serialised map, an error when
`json.Marshal` fails, or a panic. -/
def getExtraFields (env : Env) (m : router.Message) : Outcome (List Nat) :=
  match extraFields env m with
  | none => Outcome.panic
  | some extra =>
    match env.Marshal extra with
    | Except.error err => Outcome.error err
    | Except.ok rawExtra => Outcome.ok rawExtra

/-! ## `GelfAdapter.Stream` -/

/-- The constant `gelf.LOG_ERR` of the go-gelf library (syslog severity 3). -/
def gelf.LOG_ERR : Int := 3

/-- The constant `gelf.LOG_INFO` of the go-gelf library (syslog severity 6). -/
def gelf.LOG_INFO : Int := 6

/-- The constant `time.Millisecond`, a duration in nanoseconds. -/
def Millisecond : Int := 1000000

/-! ### The type `float64`

The finite values of a `float64` are rational numbers, and they are modelled as
such.  A conversion to `float64` and a `float64` division yield the value
nearest to the exact result, a tie going to the value with an even significand
(IEEE 754 binary64, the rounding Go uses). -/

/-- The finite values of the type `float64`: a significand of at most 53 bits
times a power of two, the smallest unit being `2 ^ (-1074)`. -/
def isFloat64 (v : ℚ) : Prop :=
  ∃ m e : ℤ, |m| < 9007199254740992 ∧ -1074 ≤ e ∧ e ≤ 971 ∧ v = m * 2 ^ e

/-- The integer nearest to `y`, a tie going to the even one. -/
def roundHalfEven (y : ℚ) : ℤ :=
  if y - ⌊y⌋ < 1 / 2 then ⌊y⌋
  else if 1 / 2 < y - ⌊y⌋ then ⌊y⌋ + 1
  else if ⌊y⌋ % 2 = 0 then ⌊y⌋
  else ⌊y⌋ + 1

/-- The exponent of the unit in the last place of the `float64` values around a
positive `x`: 52 below the exponent of `x`, and `-1074` for the subnormal
values. -/
def ulpExponent (x : ℚ) : ℤ := max (Int.log 2 x) (-1022) - 52

/-- The `float64` value nearest to a positive `x`: the nearest multiple of the
unit in the last place. -/
def float64Pos (x : ℚ) : ℚ := (roundHalfEven (x / 2 ^ ulpExponent x) : ℚ) * 2 ^ ulpExponent x

/-- The `float64` value a computation with the exact result `q` yields.  A
result of magnitude `2 ^ 1024` or more, which `float64` turns into an infinity,
does not arise in this program, whose operands are below `2 ^ 64`. -/
def float64 (q : ℚ) : ℚ :=
  if 0 < q then float64Pos q else if q < 0 then -float64Pos (-q) else 0

/-- The type `gelf.Message`, restricted to the fields the adapter sets.
`TimeUnix` is a `float64` in Go; it is modelled by the rational number that
`float64` value is. -/
structure gelf.Message where
  Version : GoString
  Host : GoString
  Short : GoString
  TimeUnix : ℚ
  Level : Int
  RawExtra : List Nat
  deriving DecidableEq

/-- The expression of source line 107,
`float64(m.Message.Time.UnixNano()/int64(time.Millisecond)) / 1000.0`: the
`int64` count of `UnixNano`, an `int64` division, which truncates toward zero,
the conversion of the quotient to `float64`, and a `float64` division by
`1000.0`. -/
def TimeUnix (t : Time) : ℚ :=
  float64 (float64 ((t.UnixNano.tdiv Millisecond : Int) : ℚ) / 1000)

/-- The body of the loop of `Stream` up to the message it hands to the
transport (source lines 86-114): the level, the extra fields, the host, the
message literal and the replacement of an empty short text. -/
def buildMessage (env : Env) (m : router.Message) : Outcome gelf.Message :=
  let level := if m.Source = str "stderr" then gelf.LOG_ERR else gelf.LOG_INFO
  match getExtraFields env m with
  | Outcome.panic => Outcome.panic
  | Outcome.error err => Outcome.error err
  | Outcome.ok extra =>
    let host := labelGet m.Container.Config.Labels (str "io.rancher.container.name")
    let host := if host.length = 0 then env.hostname else host
    let msg : gelf.Message :=
      { Version := str "1.1",
        Host := host,
        Short := m.Data,
        TimeUnix := TimeUnix m.Time,
        Level := level,
        RawExtra := extra }
    let msg := if msg.Short = str "" then { msg with Short := str "None" } else msg
    Outcome.ok msg

/-- The transport writer `*gelf.Writer`, seen through `WriteMessage`: given the
number of messages it was handed before and the message, it returns `nil`
(`none`) or an error. -/
structure gelf.Writer where
  WriteMessage : Nat → gelf.Message → Option GoString

/-- The type `router.Route`, restricted to the fields the adapter reads. -/
structure router.Route where
  Adapter : GoString
  Address : GoString

/-- The type `GelfAdapter`. -/
structure GelfAdapter where
  writer : gelf.Writer
  route : router.Route

/-- What a run of `Stream` has done so far: the messages handed to the
transport and the lines written with `log.Println`, both in order, and whether
the run ended in a runtime panic. -/
structure Run where
  sent : List gelf.Message
  logs : List GoString
  panicked : Bool
  deriving DecidableEq

/-- The line `log.Println("Graylog:", err)` writes. -/
def logLine (err : GoString) : GoString := str "Graylog:" ++ str " " ++ err

/-- The method `GelfAdapter.Stream` over a stream that delivers the given
records and is then closed, continuing the run `r`. -/
def GelfAdapter.Stream (env : Env) (a : GelfAdapter) : List router.Message → Run → Run
  | [], r => r
  | message :: rest, r =>
    match buildMessage env message with
    | Outcome.panic => { r with panicked := true }
    | Outcome.error err =>
      GelfAdapter.Stream env a rest { r with logs := r.logs ++ [logLine err] }
    | Outcome.ok msg =>
      match a.writer.WriteMessage r.sent.length msg with
      | some err =>
        GelfAdapter.Stream env a rest
          { r with sent := r.sent ++ [msg], logs := r.logs ++ [logLine err] }
      | none => GelfAdapter.Stream env a rest { r with sent := r.sent ++ [msg] }

/-- The run before the first record. -/
def Run.start : Run := { sent := [], logs := [], panicked := false }

/-! ## Startup: `fromRancherMetadata` and `init` -/

/-- The constant `rancherBaseUrl`. -/
def rancherBaseUrl : GoString := str "http://rancher-metadata.rancher.internal"

/-- What the two library calls of `fromRancherMetadata` yield for a URL:
`http.Get` returns an error, or it succeeds and `ioutil.ReadAll` on the body
returns an error, or both succeed and the body is read. -/
inductive HttpOutcome where
  | getError (err : GoString)
  | readError (err : GoString)
  | body (respBytes : GoString)
  deriving DecidableEq, Repr

/-- The function `fromRancherMetadata`: the pair `(value, err)` it returns,
`none` standing for the `nil` error. -/
def fromRancherMetadata (httpGet : GoString → HttpOutcome) (path : GoString) :
    GoString × Option GoString :=
  match httpGet (rancherBaseUrl ++ path) with
  | HttpOutcome.getError err => (str "", some err)
  | HttpOutcome.readError err => (str "", some err)
  | HttpOutcome.body respBytes => (respBytes, none)

/-- How `fmt.Println` prints an operand of type `error`. -/
def errorText : Option GoString → GoString
  | none => str "<nil>"
  | some err => err

/-- What `init` leaves behind: the package variables `hostname` and
`rancherEnvironment`, the lines printed with `fmt.Println`, and the names
registered with `router.AdapterFactories`. -/
structure Startup where
  hostname : GoString
  rancherEnvironment : GoString
  output : List GoString
  factories : List GoString
  deriving DecidableEq, Repr

/-- The function `init`, given the answers of the metadata service and the
pair `os.Hostname()` returns (whose error `init` discards). -/
def init (httpGet : GoString → HttpOutcome) (osHostname : GoString × Option GoString) :
    Startup :=
  let r1 := fromRancherMetadata httpGet (str "/latest/self/host/name")
  let warn1 := decide (r1.1 = str "" ∨ r1.2 ≠ none)
  let hostname := if warn1 then osHostname.1 else r1.1
  let out1 :=
    (if warn1 then
      [str "WARN: Hostname is not available from Rancher Metadata or query resulted an error:"
        ++ str " " ++ errorText r1.2]
    else []) ++ [str "Hostname:" ++ str " " ++ hostname]
  let r2 := fromRancherMetadata httpGet (str "/latest/name")
  let warn2 := decide (r2.1 = str "" ∨ r2.2 ≠ none)
  let rancherEnvironment := if warn2 then str "-" else r2.1
  let out2 :=
    (if warn2 then
      [str "WARN: Environment is not available from Rancher Metadata or query resulted an error:"
        ++ str " " ++ errorText r2.2]
    else []) ++ [str "Environment:" ++ str " " ++ rancherEnvironment]
  { hostname := hostname,
    rancherEnvironment := rancherEnvironment,
    output := out1 ++ out2,
    factories := [str "gelf"] }

/-! ## `NewGelfAdapter` -/

/-- The method `Route.AdapterTransport` of the logspout router: the second of
the parts `strings.Split(r.Adapter, "+")` yields, or the default when there is
only one part. -/
def router.Route.AdapterTransport (r : router.Route) (dfault : GoString) : GoString :=
  match List.splitOn 43 r.Adapter with
  | _ :: part :: _ => part
  | _ => dfault

/-- The library calls of `NewGelfAdapter`: whether
`router.AdapterTransports.Lookup` finds a transport of the given name, and what
`gelf.NewWriter` returns for an address. -/
structure Libraries where
  Lookup : GoString → Bool
  NewWriter : GoString → Except GoString gelf.Writer

/-- What a call of `NewGelfAdapter` does: the adapter it returns (`none` is
`nil`), the error it returns (`none` is `nil`), and the addresses it passed to
`gelf.NewWriter`. -/
structure Construction where
  adapter : Option GelfAdapter
  err : Option GoString
  opened : List GoString

/-- The function `NewGelfAdapter`. -/
def NewGelfAdapter (lib : Libraries) (route : router.Route) : Construction :=
  let found := lib.Lookup (route.AdapterTransport (str "udp"))
  if !found then
    { adapter := none,
      err := some (str "unable to find adapter: " ++ route.Adapter),
      opened := [] }
  else
    match lib.NewWriter route.Address with
    | Except.error err => { adapter := none, err := some err, opened := [route.Address] }
    | Except.ok gelfWriter =>
      { adapter := some { route := route, writer := gelfWriter },
        err := none,
        opened := [route.Address] }

/-! ## Auxiliary definitions used to state the properties -/

/-- Whether the loop of `getExtraFields` copies the label with this name: the
value of the test of source line 144 when its slice is in range. -/
def qualifies (env : Env) (name : GoString) : Bool :=
  decide (name.length > 5) && decide (ToLower env.unicodeLower (name.take 5) = str "gelf_")

/-- The loop of source lines 143-147 with the slices replaced by `take` and
`drop`, to which `labelLoop` is proved equal. -/
def labelFold (env : Env) (labels : Labels) (extra : Fields) : Fields :=
  labels.foldl
    (fun acc nl => if qualifies env nl.1 then mapSet acc (nl.1.drop 4) (Value.str nl.2) else acc)
    extra

/-- Some label copied by the loop is stored under the key `key`. -/
def derives (env : Env) (labels : Labels) (key : GoString) : Prop :=
  ∃ nl ∈ labels, qualifies env nl.1 = true ∧ nl.1.drop 4 = key

instance (env : Env) (labels : Labels) (key : GoString) : Decidable (derives env labels key) := by
  unfold derives; infer_instance

/-- The marker of the specification, read from its words: the first five
characters of the label name equal `gelf_`, compared case-insensitively. -/
def specMarker (name : GoString) : Bool :=
  decide ((name.take 5).map lowerByte = str "gelf_")

/-- The eleven keys of the map literal of source lines 130-142. -/
def coreKeys : List GoString :=
  [ str "_container_id", str "_container_name", str "_image_id", str "_image_name",
    str "_command", str "_created", str "_rancher_stack_service", str "_rancher_host",
    str "_rancher_environment", str "_logspout_instance", str "_logspout_source" ]

/-- The message `Stream` hands to the transport for a record, if any. -/
def built (env : Env) (m : router.Message) : Option gelf.Message :=
  match buildMessage env m with
  | Outcome.ok msg => some msg
  | _ => none

/-- The value `getExtraFields` stores under a key: `none` when the key is absent
from the map, and when the call panics. -/
def fieldOf (env : Env) (m : router.Message) (key : GoString) : Option Value :=
  match extraFields env m with
  | some extra => mapGet extra key
  | none => none

/-- The record with its label map listed in another order. -/
def withLabels (m : router.Message) (labels : Labels) : router.Message :=
  { m with
    Container :=
      { m.Container with Config := { m.Container.Config with Labels := labels } } }

/-- Whether the enrichment of a record fails with an error, so that `Stream`
logs the error and skips the record. -/
def enrichmentFails (env : Env) (m : router.Message) : Bool :=
  match buildMessage env m with
  | Outcome.error _ => true
  | _ => false

/-- The number of failed sends among the messages handed to the transport, the
first of which is the message number `first`. -/
def failedSends (a : GelfAdapter) (first : Nat) (msgs : List gelf.Message) : Nat :=
  (msgs.enumFrom first).countP (fun p => (a.writer.WriteMessage p.1 p.2).isSome)

/-- A key begins with the underscore character. -/
def beginsWithUnderscore (key : GoString) : Prop := ∃ rest, key = str "_" ++ rest

/-! ## Sample inputs -/

/-- A serialiser that always succeeds, standing for `json.Marshal`. -/
def sampleMarshal (extra : Fields) : Except GoString (List Nat) :=
  Except.ok (extra.flatMap (fun kv =>
    kv.1 ++ str "=" ++ (match kv.2 with
      | Value.str s => s
      | Value.time t => [t.nanos.toNat % 256]) ++ str ";"))

/-- A process on host `h1` in environment `prod`, on the machine `box`. -/
def sampleEnv : Env :=
  { hostname := str "h1",
    rancherEnvironment := str "prod",
    osHostname := str "box",
    unicodeLower := fun s => s,
    Marshal := sampleMarshal }

/-- A container named `/web` with the given labels. -/
def sampleContainer (labels : Labels) : docker.Container :=
  { ID := str "c0ffee",
    Name := str "/web",
    Image := str "sha256:1",
    Config := { Image := str "nginx", Cmd := [str "nginx", str "-g"], Labels := labels },
    Created := { nanos := 1500000000000000000 },
    Node := none }

/-- A record from the standard output of the sample container. -/
def sampleRecord (labels : Labels) : router.Message :=
  { Container := sampleContainer labels,
    Source := str "stdout",
    Data := str "hello",
    Time := { nanos := 1577934245678000000 } }

/-- The sample record with the container name replaced. -/
def recordNamed (name : GoString) (labels : Labels) : router.Message :=
  { sampleRecord labels with Container := { sampleContainer labels with Name := name } }

/-- The serialised extra fields of a record of the sample container. -/
def sampleRaw (m : router.Message) : List Nat :=
  match sampleMarshal (coreFields sampleEnv m (str "web")) with
  | Except.ok raw => raw
  | Except.error _ => []

/-- The message expected for a record of the sample container without labels. -/
def sampleMessage (m : router.Message) (short : GoString) (level : Int) : gelf.Message :=
  { Version := str "1.1",
    Host := str "h1",
    Short := short,
    TimeUnix := TimeUnix m.Time,
    Level := level,
    RawExtra := sampleRaw m }

/-- The sample record, read from the standard error of the container. -/
def stderrRecord : router.Message := { sampleRecord [] with Source := str "stderr" }

/-- The sample record with an empty payload. -/
def emptyRecord : router.Message := { sampleRecord [] with Data := str "" }

/-- The sample record on a container that carries the cluster node `n1`. -/
def nodeRecord (labels : Labels) : router.Message :=
  { sampleRecord labels with
    Container := { sampleContainer labels with Node := some { Name := str "n1" } } }

/-- An adapter whose transport accepts every message. -/
def sampleAdapter : GelfAdapter :=
  { writer := { WriteMessage := fun _ _ => none },
    route := { Adapter := str "gelf", Address := str "graylog:12201" } }

/-- A serialiser that, like `json.Marshal` on a `time.Time`, rejects a creation
time after the year 9999 and accepts every other map. -/
def strictMarshal (extra : Fields) : Except GoString (List Nat) :=
  if extra.any (fun kv =>
      match kv.2 with
      | Value.time t => decide (253402300800000000000 ≤ t.nanos)
      | Value.str _ => false)
  then Except.error (str "Time.MarshalJSON: year outside of range [0,9999]")
  else sampleMarshal extra

/-- The sample process with the serialiser that rejects late creation times. -/
def strictEnv : Env := { sampleEnv with Marshal := strictMarshal }

/-- The sample record on a container created in the year 10000. -/
def lateRecord : router.Message :=
  { sampleRecord [] with
    Container := { sampleContainer [] with Created := { nanos := 253402300800000000000 } } }

/-- The sample record captured at the given count of nanoseconds. -/
def recordAt (n : Int) : router.Message := { sampleRecord [] with Time := { nanos := n } }

/-- A metadata service that answers `host-7` for the host name and cannot be
reached for the environment name. -/
def sampleHttp (url : GoString) : HttpOutcome :=
  if url = rancherBaseUrl ++ str "/latest/self/host/name" then HttpOutcome.body (str "host-7")
  else HttpOutcome.getError (str "dial tcp: i/o timeout")

/-- A metadata service that cannot be reached. -/
def downHttp (_ : GoString) : HttpOutcome := HttpOutcome.getError (str "dial tcp: i/o timeout")

/-- A router that knows the transports `udp` and `tcp`, and a writer library
that opens every address. -/
def sampleLibraries : Libraries :=
  { Lookup := fun name => decide (name = str "udp") || decide (name = str "tcp"),
    NewWriter := fun _ => Except.ok { WriteMessage := fun _ _ => none } }

/-! ## Basic facts about the embedding -/

theorem str_empty : str "" = [] := by decide

theorem mapGet_mapSet (m : Fields) (key : GoString) (v : Value) (k : GoString) :
    mapGet (mapSet m key v) k = if key = k then some v else mapGet m k := by
  induction m with
  | nil => simp [mapSet, mapGet]
  | cons hd tl ih =>
    obtain ⟨k0, v0⟩ := hd
    by_cases h0 : k0 = key
    · subst h0
      by_cases h1 : k0 = k <;> simp [mapSet, mapGet, h1]
    · by_cases h1 : k0 = k
      · subst h1
        have h2 : ¬ key = k0 := fun h => h0 h.symm
        simp [mapSet, mapGet, h0, h2]
      · simp [mapSet, mapGet, h0, h1, ih]

theorem mem_mapKeys_mapSet (m : Fields) (key : GoString) (v : Value) (k : GoString) :
    k ∈ mapKeys (mapSet m key v) ↔ k = key ∨ k ∈ mapKeys m := by
  induction m with
  | nil => simp [mapSet, mapKeys]
  | cons hd tl ih =>
    obtain ⟨k0, v0⟩ := hd
    by_cases h0 : k0 = key
    · subst h0
      simp [mapSet, mapKeys]
    · have ih1 : k ∈ List.map Prod.fst (mapSet tl key v) ↔ k = key ∨ k ∈ List.map Prod.fst tl := ih
      simp only [mapSet, mapKeys, h0, if_false, List.map_cons, List.mem_cons, ih1]
      tauto

theorem nodup_mapKeys_mapSet (m : Fields) (key : GoString) (v : Value)
    (h : (mapKeys m).Nodup) : (mapKeys (mapSet m key v)).Nodup := by
  induction m with
  | nil => simp [mapSet, mapKeys]
  | cons hd tl ih =>
    obtain ⟨k0, v0⟩ := hd
    have hk : k0 ∉ mapKeys tl ∧ (mapKeys tl).Nodup := by
      simpa [mapKeys] using h
    by_cases h0 : k0 = key
    · subst h0
      simpa [mapSet, mapKeys] using h
    · have h1 : k0 ∉ mapKeys (mapSet tl key v) := by
        rw [mem_mapKeys_mapSet]
        exact fun hc => hc.elim h0 hk.1
      have h2 := ih hk.2
      simp only [mapSet, h0, if_false]
      exact List.nodup_cons.mpr ⟨h1, h2⟩

theorem mem_mapKeys_iff (m : Fields) (k : GoString) :
    k ∈ mapKeys m ↔ ∃ v, mapGet m k = some v := by
  induction m with
  | nil => simp [mapKeys, mapGet]
  | cons hd tl ih =>
    obtain ⟨k0, v0⟩ := hd
    have ih1 : k ∈ List.map Prod.fst tl ↔ ∃ v, mapGet tl k = some v := ih
    by_cases h0 : k0 = k
    · simp [mapKeys, mapGet, h0]
    · have h1 : ¬ k = k0 := fun h => h0 h.symm
      simp [mapKeys, mapGet, h0, h1, ih1]

theorem slice_zero_five (name : GoString) (h : name.length > 5) :
    slice name 0 5 = some (name.take 5) := by
  have h5 : 5 ≤ name.length := by omega
  simp [slice, h5]

theorem labelTest_eq (env : Env) (name : GoString) :
    labelTest env name = some (qualifies env name) := by
  by_cases h : name.length > 5
  · simp [labelTest, qualifies, h, slice_zero_five name h]
  · simp [labelTest, qualifies, h]

theorem labelStep_eq (env : Env) (extra : Fields) (name label : GoString) :
    labelStep env extra name label =
      some (if qualifies env name then mapSet extra (name.drop 4) (Value.str label) else extra) := by
  unfold labelStep
  rw [labelTest_eq]
  cases hq : qualifies env name with
  | false => simp
  | true =>
    have h5 : name.length > 5 := by
      simp only [qualifies, Bool.and_eq_true, decide_eq_true_eq] at hq
      exact hq.1
    have h4 : 4 ≤ name.length := by omega
    simp [sliceFrom, h4]

theorem labelLoop_eq (env : Env) (labels : Labels) (extra : Fields) :
    labelLoop env labels extra = some (labelFold env labels extra) := by
  induction labels generalizing extra with
  | nil => simp [labelLoop, labelFold]
  | cons hd tl ih =>
    obtain ⟨name, label⟩ := hd
    simp only [labelLoop, labelStep_eq, ih]
    simp [labelFold]

/-- The map of extra fields when the container name is not empty. -/
theorem extraFields_of_ne_nil (env : Env) (m : router.Message) (h : m.Container.Name ≠ []) :
    extraFields env m =
      some (match m.Container.Node with
        | some swarmnode =>
          mapSet (labelFold env m.Container.Config.Labels
            (coreFields env m (m.Container.Name.drop 1))) (str "_swarm_node")
            (Value.str swarmnode.Name)
        | none =>
          labelFold env m.Container.Config.Labels (coreFields env m (m.Container.Name.drop 1))) := by
  have h1 : 1 ≤ m.Container.Name.length := by
    cases hn : m.Container.Name with
    | nil => exact absurd hn h
    | cons a l => simp
  unfold extraFields
  simp only [sliceFrom, h1, if_true, labelLoop_eq]
  cases m.Container.Node <;> rfl

/-- The only runtime panic of `getExtraFields` is the slice of an empty
container name. -/
theorem extraFields_eq_none_iff (env : Env) (m : router.Message) :
    extraFields env m = none ↔ m.Container.Name = [] := by
  constructor
  · intro h
    by_contra hne
    rw [extraFields_of_ne_nil env m hne] at h
    exact Option.noConfusion h
  · intro h
    simp [extraFields, sliceFrom, h]

theorem getExtraFields_eq_panic_iff (env : Env) (m : router.Message) :
    getExtraFields env m = Outcome.panic ↔ m.Container.Name = [] := by
  rw [← extraFields_eq_none_iff env m]
  unfold getExtraFields
  cases extraFields env m with
  | none => simp
  | some extra => cases hm : env.Marshal extra <;> simp [hm]

/-- The message `Stream` builds, when it builds one. -/
theorem buildMessage_eq_ok_iff (env : Env) (m : router.Message) (msg : gelf.Message) :
    buildMessage env m = Outcome.ok msg ↔
      ∃ extra, getExtraFields env m = Outcome.ok extra ∧
        msg =
          { Version := str "1.1",
            Host :=
              if (labelGet m.Container.Config.Labels (str "io.rancher.container.name")).length = 0
              then env.hostname
              else labelGet m.Container.Config.Labels (str "io.rancher.container.name"),
            Short := if m.Data = [] then str "None" else m.Data,
            TimeUnix := TimeUnix m.Time,
            Level := if m.Source = str "stderr" then gelf.LOG_ERR else gelf.LOG_INFO,
            RawExtra := extra } := by
  unfold buildMessage
  cases hg : getExtraFields env m with
  | panic => simp
  | error e => simp
  | ok extra =>
    by_cases hd : m.Data = []
    · simp [hd, str_empty, eq_comm]
    · simp [hd, str_empty, eq_comm]

theorem buildMessage_eq_panic_iff (env : Env) (m : router.Message) :
    buildMessage env m = Outcome.panic ↔ m.Container.Name = [] := by
  rw [← getExtraFields_eq_panic_iff env m]
  unfold buildMessage
  cases hg : getExtraFields env m <;> simp

/-! ## The label loop -/

theorem labelFold_nil (env : Env) (extra : Fields) : labelFold env [] extra = extra := rfl

theorem labelFold_cons (env : Env) (name label : GoString) (rest : Labels) (extra : Fields) :
    labelFold env ((name, label) :: rest) extra =
      labelFold env rest
        (if qualifies env name then mapSet extra (name.drop 4) (Value.str label) else extra) := rfl

theorem derives_cons (env : Env) (name label : GoString) (rest : Labels) (key : GoString) :
    derives env ((name, label) :: rest) key ↔
      (qualifies env name = true ∧ name.drop 4 = key) ∨ derives env rest key := by
  simp [derives]

/-- A key no copied label is stored under keeps the value it had before the loop. -/
theorem mapGet_labelFold_of_not_derives (env : Env) (labels : Labels) (extra : Fields)
    (key : GoString) (h : ¬ derives env labels key) :
    mapGet (labelFold env labels extra) key = mapGet extra key := by
  induction labels generalizing extra with
  | nil => rfl
  | cons hd tl ih =>
    obtain ⟨name, label⟩ := hd
    rw [derives_cons] at h
    have h1 : ¬ (qualifies env name = true ∧ name.drop 4 = key) := fun hc => h (Or.inl hc)
    have h2 : ¬ derives env tl key := fun hc => h (Or.inr hc)
    rw [labelFold_cons, ih _ h2]
    by_cases hq : qualifies env name = true
    · have hk : ¬ name.drop 4 = key := fun hc => h1 ⟨hq, hc⟩
      simp [hq, mapGet_mapSet, hk]
    · simp [hq]

/-- A key under which copied labels are stored, all with the same value, holds
that value after the loop. -/
theorem mapGet_labelFold_of_derives (env : Env) (labels : Labels) (extra : Fields)
    (key value : GoString) (h : ∃ nl ∈ labels, qualifies env nl.1 = true ∧ nl.1.drop 4 = key ∧
      nl.2 = value)
    (hall : ∀ nl ∈ labels, qualifies env nl.1 = true → nl.1.drop 4 = key → nl.2 = value) :
    mapGet (labelFold env labels extra) key = some (Value.str value) := by
  induction labels generalizing extra with
  | nil =>
    obtain ⟨nl, hnl, _⟩ := h
    exact absurd hnl (List.not_mem_nil nl)
  | cons hd tl ih =>
    obtain ⟨name, label⟩ := hd
    have hall1 : ∀ nl ∈ tl, qualifies env nl.1 = true → nl.1.drop 4 = key → nl.2 = value :=
      fun nl hnl => hall nl (List.mem_cons_of_mem _ hnl)
    rw [labelFold_cons]
    by_cases hd : derives env tl key
    · obtain ⟨nl, hnl, hq, hk⟩ := hd
      exact ih _ ⟨nl, hnl, hq, hk, hall1 nl hnl hq hk⟩ hall1
    · rw [mapGet_labelFold_of_not_derives env tl _ key hd]
      obtain ⟨nl, hnl, hq, hk, hv⟩ := h
      rcases List.mem_cons.mp hnl with heq | htl
      · subst heq
        simp only at hq hk hv
        simp [hq, mapGet_mapSet, hk, hv]
      · exact absurd ⟨nl, htl, hq, hk⟩ hd

/-- The keys after the loop: those before it and those of the copied labels. -/
theorem mem_mapKeys_labelFold (env : Env) (labels : Labels) (extra : Fields) (key : GoString) :
    key ∈ mapKeys (labelFold env labels extra) ↔ key ∈ mapKeys extra ∨ derives env labels key := by
  induction labels generalizing extra with
  | nil => simp [labelFold_nil, derives]
  | cons hd tl ih =>
    obtain ⟨name, label⟩ := hd
    rw [labelFold_cons, ih, derives_cons]
    by_cases hq : qualifies env name = true
    · simp only [hq, if_true, mem_mapKeys_mapSet, true_and]
      constructor
      · rintro ((h | h) | h)
        · exact Or.inr (Or.inl h.symm)
        · exact Or.inl h
        · exact Or.inr (Or.inr h)
      · rintro (h | h | h)
        · exact Or.inl (Or.inr h)
        · exact Or.inl (Or.inl h.symm)
        · exact Or.inr h
    · simp [hq]

theorem nodup_mapKeys_labelFold (env : Env) (labels : Labels) (extra : Fields)
    (h : (mapKeys extra).Nodup) : (mapKeys (labelFold env labels extra)).Nodup := by
  induction labels generalizing extra with
  | nil => exact h
  | cons hd tl ih =>
    obtain ⟨name, label⟩ := hd
    rw [labelFold_cons]
    apply ih
    by_cases hq : qualifies env name = true
    · simpa [hq] using nodup_mapKeys_mapSet extra _ _ h
    · simpa [hq] using h

/-! ## The consume loop -/

/-- On a stream in which no container name is empty, `Stream` ends without a
panic and hands to the transport, in arrival order, exactly the messages of
the records whose enrichment succeeded, whatever the transport answers. -/
theorem Stream_sent_of_names_ne_nil (env : Env) (a : GelfAdapter)
    (records : List router.Message) (r : Run)
    (h : ∀ m ∈ records, m.Container.Name ≠ []) :
    (GelfAdapter.Stream env a records r).sent = r.sent ++ records.filterMap (built env) ∧
      (GelfAdapter.Stream env a records r).panicked = r.panicked := by
  induction records generalizing r with
  | nil => simp [GelfAdapter.Stream]
  | cons m rest ih =>
    have hrest : ∀ m1 ∈ rest, m1.Container.Name ≠ [] :=
      fun m1 hm1 => h m1 (List.mem_cons_of_mem _ hm1)
    have hm : buildMessage env m ≠ Outcome.panic := by
      rw [Ne, buildMessage_eq_panic_iff]
      exact h m (List.mem_cons_self _ _)
    unfold GelfAdapter.Stream
    cases hb : buildMessage env m with
    | panic => exact absurd hb hm
    | error e =>
      have := ih { r with logs := r.logs ++ [logLine e] } hrest
      simpa [built, hb] using this
    | ok msg =>
      cases hw : a.writer.WriteMessage r.sent.length msg with
      | some err =>
        have := ih { r with sent := r.sent ++ [msg], logs := r.logs ++ [logLine err] } hrest
        simpa [built, hb, hw] using this
      | none =>
        have := ih { r with sent := r.sent ++ [msg] } hrest
        simpa [built, hb, hw] using this

/-! ## The marker of copied labels -/

theorem le_lowerByte (c : Nat) : c ≤ lowerByte c := by
  unfold lowerByte
  split <;> omega

theorem isASCII_of_map_lowerByte (s : GoString) (h : isASCII (s.map lowerByte) = true) :
    isASCII s = true := by
  simp only [isASCII, List.all_eq_true, decide_eq_true_eq, List.mem_map] at h ⊢
  intro c hc
  have h1 := h (lowerByte c) ⟨c, hc, rfl⟩
  have h2 := le_lowerByte c
  omega

/-- A label longer than five bytes that carries the marker of the specification
passes the test of the loop, whatever the Unicode tables are. -/
theorem qualifies_of_specMarker (env : Env) (name : GoString) (hlen : name.length > 5)
    (h : specMarker name = true) : qualifies env name = true := by
  simp only [specMarker, decide_eq_true_eq] at h
  have hascii : isASCII (name.take 5) = true := by
    apply isASCII_of_map_lowerByte
    rw [h]
    decide
  simp [qualifies, hlen, ToLower, hascii, h]

/-- A label that passes the test of the loop is longer than five bytes and
carries the marker of the specification, given that the Unicode branch of
`strings.ToLower` never produces the ASCII string `gelf_`. -/
theorem specMarker_of_qualifies (env : Env) (name : GoString)
    (hU : ∀ s, isASCII s = false → env.unicodeLower s ≠ str "gelf_")
    (h : qualifies env name = true) : name.length > 5 ∧ specMarker name = true := by
  simp only [qualifies, Bool.and_eq_true, decide_eq_true_eq] at h
  refine ⟨h.1, ?_⟩
  have h2 := h.2
  unfold ToLower at h2
  cases hascii : isASCII (name.take 5) with
  | true =>
    rw [hascii] at h2
    simpa [specMarker] using h2
  | false =>
    rw [hascii] at h2
    exact absurd h2 (hU _ hascii)

theorem labelGet_of_mem (labels : Labels) (key value : GoString)
    (hnd : (labels.map Prod.fst).Nodup) (h : (key, value) ∈ labels) :
    labelGet labels key = value := by
  induction labels with
  | nil => exact absurd h (List.not_mem_nil _)
  | cons hd tl ih =>
    obtain ⟨k0, v0⟩ := hd
    have hk : k0 ∉ tl.map Prod.fst ∧ (tl.map Prod.fst).Nodup := by simpa using hnd
    rcases List.mem_cons.mp h with heq | htl
    · cases heq
      simp [labelGet]
    · have hne : ¬ k0 = key := by
        intro hc
        apply hk.1
        rw [hc]
        exact List.mem_map.mpr ⟨(key, value), htl, rfl⟩
      simp [labelGet, hne, ih hk.2 htl]

theorem labelGet_of_not_mem (labels : Labels) (key : GoString)
    (h : key ∉ labels.map Prod.fst) : labelGet labels key = [] := by
  induction labels with
  | nil => rfl
  | cons hd tl ih =>
    obtain ⟨k0, v0⟩ := hd
    have h1 : ¬ k0 = key ∧ key ∉ tl.map Prod.fst := by
      constructor
      · intro hc
        exact h (by simp [hc])
      · intro hc
        exact h (by simp only [List.map_cons, List.mem_cons]; exact Or.inr hc)
    simp [labelGet, h1.1, ih h1.2]

/-- Label lookup does not depend on the order in which the map is listed. -/
theorem labelGet_perm (l1 l2 : Labels) (key : GoString) (hnd : (l1.map Prod.fst).Nodup)
    (hp : l2.Perm l1) : labelGet l2 key = labelGet l1 key := by
  have hpk : (l2.map Prod.fst).Perm (l1.map Prod.fst) := hp.map _
  have hnd2 : (l2.map Prod.fst).Nodup := hpk.nodup_iff.mpr hnd
  by_cases hk : key ∈ l1.map Prod.fst
  · obtain ⟨⟨k, v⟩, hmem, hkv⟩ := List.mem_map.mp hk
    simp only at hkv
    subst hkv
    rw [labelGet_of_mem l1 k v hnd hmem, labelGet_of_mem l2 k v hnd2 (hp.mem_iff.mpr hmem)]
  · have hk2 : key ∉ l2.map Prod.fst := fun hc => hk (hpk.mem_iff.mp hc)
    rw [labelGet_of_not_mem l1 key hk, labelGet_of_not_mem l2 key hk2]

/-- The value of a key other than `_swarm_node` that no copied label is stored
under is the one of the map literal. -/
theorem mapGet_extraFields_core (env : Env) (m : router.Message) (extra : Fields)
    (key : GoString) (hx : extraFields env m = some extra) (hkey : key ≠ str "_swarm_node")
    (hd : ¬ derives env m.Container.Config.Labels key) :
    mapGet extra key = mapGet (coreFields env m (m.Container.Name.drop 1)) key := by
  have hne : m.Container.Name ≠ [] := fun hc => by
    rw [(extraFields_eq_none_iff env m).mpr hc] at hx
    exact Option.noConfusion hx
  rw [extraFields_of_ne_nil env m hne] at hx
  cases hn : m.Container.Node with
  | none =>
    rw [hn] at hx
    simp only [Option.some.injEq] at hx
    rw [← hx, mapGet_labelFold_of_not_derives env _ _ key hd]
  | some node =>
    rw [hn] at hx
    simp only [Option.some.injEq] at hx
    have hk2 : ¬ str "_swarm_node" = key := fun hc => hkey hc.symm
    rw [← hx, mapGet_mapSet, if_neg hk2, mapGet_labelFold_of_not_derives env _ _ key hd]

theorem mapKeys_coreFields (env : Env) (m : router.Message) (name : GoString) :
    mapKeys (coreFields env m name) = coreKeys := rfl

theorem nodup_coreKeys : coreKeys.Nodup := by decide

/-- The value the loop leaves under a key does not depend on the order in which
the labels are visited, when the labels copied under one key agree on their
value. -/
theorem mapGet_labelFold_perm (env : Env) (l1 l2 : Labels) (base : Fields) (key : GoString)
    (hp : l2.Perm l1)
    (hagree : ∀ a ∈ l1, ∀ b ∈ l1, qualifies env a.1 = true → qualifies env b.1 = true →
      a.1.drop 4 = b.1.drop 4 → a.2 = b.2) :
    mapGet (labelFold env l2 base) key = mapGet (labelFold env l1 base) key := by
  by_cases hd : derives env l1 key
  · obtain ⟨nl, hnl, hq, hk⟩ := hd
    have hall1 : ∀ b ∈ l1, qualifies env b.1 = true → b.1.drop 4 = key → b.2 = nl.2 :=
      fun b hb hqb hkb => hagree b hb nl hnl hqb hq (hkb.trans hk.symm)
    have hall2 : ∀ b ∈ l2, qualifies env b.1 = true → b.1.drop 4 = key → b.2 = nl.2 :=
      fun b hb => hall1 b (hp.mem_iff.mp hb)
    rw [mapGet_labelFold_of_derives env l1 base key nl.2 ⟨nl, hnl, hq, hk, rfl⟩ hall1,
      mapGet_labelFold_of_derives env l2 base key nl.2
        ⟨nl, hp.mem_iff.mpr hnl, hq, hk, rfl⟩ hall2]
  · have hd2 : ¬ derives env l2 key := by
      rintro ⟨nl, hnl, hq, hk⟩
      exact hd ⟨nl, hp.mem_iff.mp hnl, hq, hk⟩
    rw [mapGet_labelFold_of_not_derives env l1 base key hd,
      mapGet_labelFold_of_not_derives env l2 base key hd2]

/-! ## The timestamp -/

/-- Division by `time.Millisecond`, truncating toward zero, keeps the order. -/
theorem tdiv_Millisecond_mono (a b : Int) (h : a ≤ b) :
    a.tdiv Millisecond ≤ b.tdiv Millisecond := by
  have hpos : (0 : Int) < 1000000 := by decide
  have hnn : (0 : Int) ≤ 1000000 := by decide
  unfold Millisecond
  by_cases ha : 0 ≤ a
  · have hb : 0 ≤ b := le_trans ha h
    rw [Int.tdiv_eq_ediv ha hnn, Int.tdiv_eq_ediv hb hnn]
    exact Int.ediv_le_ediv hpos h
  · have ha1 : 0 ≤ -a := by omega
    have hna : a.tdiv 1000000 = -((-a) / 1000000) := by
      rw [← Int.tdiv_eq_ediv ha1 hnn, Int.neg_tdiv, neg_neg]
    by_cases hb : 0 ≤ b
    · have h1 : 0 ≤ (-a) / 1000000 := Int.ediv_nonneg ha1 hnn
      have h2 : 0 ≤ b.tdiv 1000000 := Int.tdiv_nonneg hb hnn
      omega
    · have hb1 : 0 ≤ -b := by omega
      have hnb : b.tdiv 1000000 = -((-b) / 1000000) := by
        rw [← Int.tdiv_eq_ediv hb1 hnn, Int.neg_tdiv, neg_neg]
      have h1 : (-b) / 1000000 ≤ (-a) / 1000000 := Int.ediv_le_ediv hpos (by omega)
      omega

/-! ## The arithmetic of `int64` and `float64` -/

theorem wrapInt64_of_range (x : Int) (h1 : -9223372036854775808 ≤ x)
    (h2 : x < 9223372036854775808) : wrapInt64 x = x := by
  unfold wrapInt64
  omega

theorem wrapInt64_range (x : Int) :
    -9223372036854775808 ≤ wrapInt64 x ∧ wrapInt64 x < 9223372036854775808 := by
  unfold wrapInt64
  omega

theorem abs_roundHalfEven_sub_le (y : ℚ) : |(roundHalfEven y : ℚ) - y| ≤ 1 / 2 := by
  have h1 := Int.floor_le y
  have h2 := Int.lt_floor_add_one y
  unfold roundHalfEven
  rw [abs_le]
  split_ifs <;> push_cast <;> constructor <;> linarith

theorem roundHalfEven_intCast (k : ℤ) : roundHalfEven (k : ℚ) = k := by
  unfold roundHalfEven
  simp

theorem roundHalfEven_mono {y z : ℚ} (h : y ≤ z) : roundHalfEven y ≤ roundHalfEven z := by
  have hf := Int.floor_mono h
  have hy1 := Int.floor_le y
  have hy2 := Int.lt_floor_add_one y
  have hz1 := Int.floor_le z
  have hz2 := Int.lt_floor_add_one z
  rcases eq_or_lt_of_le hf with heq | hlt
  · unfold roundHalfEven
    rw [heq] at hy1 hy2 ⊢
    split_ifs <;> first | omega | (exfalso; linarith)
  · have h1 : roundHalfEven y ≤ ⌊y⌋ + 1 := by
      unfold roundHalfEven
      split_ifs <;> omega
    have h2 : ⌊z⌋ ≤ roundHalfEven z := by
      unfold roundHalfEven
      split_ifs <;> omega
    omega

theorem roundHalfEven_le_of_le {y : ℚ} {k : ℤ} (h : y ≤ k) : roundHalfEven y ≤ k := by
  have := roundHalfEven_mono h
  rwa [roundHalfEven_intCast] at this

theorem le_roundHalfEven_of_le {y : ℚ} {k : ℤ} (h : (k : ℚ) ≤ y) : k ≤ roundHalfEven y := by
  have := roundHalfEven_mono h
  rwa [roundHalfEven_intCast] at this

theorem roundHalfEven_eq_of_abs_lt (y : ℚ) (k : ℤ) (h : |y - k| < 1 / 2) :
    roundHalfEven y = k := by
  rw [abs_lt] at h
  by_cases hk : (k : ℚ) ≤ y
  · have hfl : ⌊y⌋ = k := Int.floor_eq_iff.mpr ⟨hk, by linarith⟩
    unfold roundHalfEven
    rw [hfl, if_pos (by linarith)]
  · have hfl : ⌊y⌋ = k - 1 := Int.floor_eq_iff.mpr ⟨by push_cast; linarith, by push_cast; linarith⟩
    unfold roundHalfEven
    rw [hfl, if_neg (by push_cast; linarith), if_pos (by push_cast; linarith)]
    omega

theorem two_zpow_pos (s : ℤ) : (0 : ℚ) < 2 ^ s := zpow_pos (by norm_num) s

theorem two_zpow_log_le {x : ℚ} (hx : 0 < x) : (2 : ℚ) ^ Int.log 2 x ≤ x := by
  have := Int.zpow_log_le_self (b := 2) (by norm_num) hx
  simpa using this

theorem lt_two_zpow_log_succ (x : ℚ) : x < (2 : ℚ) ^ (Int.log 2 x + 1) := by
  have := Int.lt_zpow_succ_log_self (b := 2) (by norm_num) x
  simpa using this

theorem float64Pos_nonneg {x : ℚ} (hx : 0 ≤ x) : 0 ≤ float64Pos x := by
  unfold float64Pos
  have hpos := two_zpow_pos (ulpExponent x)
  have h0 : (0 : ℤ) ≤ roundHalfEven (x / 2 ^ ulpExponent x) :=
    le_roundHalfEven_of_le (by simpa using div_nonneg hx hpos.le)
  exact mul_nonneg (Int.cast_nonneg.mpr h0) hpos.le

theorem float64Pos_le_zpow (x : ℚ) : float64Pos x ≤ 2 ^ (ulpExponent x + 53) := by
  have hpos := two_zpow_pos (ulpExponent x)
  have hlt := lt_two_zpow_log_succ x
  have hexp : Int.log 2 x + 1 ≤ ulpExponent x + 53 := by
    have := le_max_left (Int.log 2 x) (-1022)
    unfold ulpExponent
    omega
  have hx : x ≤ 2 ^ (ulpExponent x + 53) :=
    le_trans hlt.le (zpow_le_zpow_right₀ (by norm_num) hexp)
  have hsplit : (2 : ℚ) ^ (ulpExponent x + 53) = ((9007199254740992 : ℤ) : ℚ) * 2 ^ ulpExponent x := by
    rw [zpow_add₀ (by norm_num : (2 : ℚ) ≠ 0), mul_comm]
    norm_num
  have hy : x / 2 ^ ulpExponent x ≤ ((9007199254740992 : ℤ) : ℚ) := by
    rw [div_le_iff₀ hpos, ← hsplit]
    exact hx
  have hr := roundHalfEven_le_of_le hy
  unfold float64Pos
  rw [hsplit]
  exact mul_le_mul_of_nonneg_right (Int.cast_le.mpr hr) hpos.le

theorem zpow_le_float64Pos {x : ℚ} (hx : 0 < x) (hn : -1022 ≤ Int.log 2 x) :
    2 ^ (ulpExponent x + 52) ≤ float64Pos x := by
  have hpos := two_zpow_pos (ulpExponent x)
  have hexp : ulpExponent x + 52 = Int.log 2 x := by
    unfold ulpExponent
    rw [max_eq_left hn]
    omega
  have hle : (2 : ℚ) ^ (ulpExponent x + 52) ≤ x := by
    rw [hexp]
    exact two_zpow_log_le hx
  have hsplit : (2 : ℚ) ^ (ulpExponent x + 52) = ((4503599627370496 : ℤ) : ℚ) * 2 ^ ulpExponent x := by
    rw [zpow_add₀ (by norm_num : (2 : ℚ) ≠ 0), mul_comm]
    norm_num
  have hy : ((4503599627370496 : ℤ) : ℚ) ≤ x / 2 ^ ulpExponent x := by
    rw [le_div_iff₀ hpos, ← hsplit]
    exact hle
  have hr := le_roundHalfEven_of_le hy
  unfold float64Pos
  rw [hsplit]
  exact mul_le_mul_of_nonneg_right (Int.cast_le.mpr hr) hpos.le

theorem float64Pos_mono {x y : ℚ} (hx : 0 < x) (h : x ≤ y) : float64Pos x ≤ float64Pos y := by
  have hy : 0 < y := lt_of_lt_of_le hx h
  have hlog : Int.log 2 x ≤ Int.log 2 y := Int.log_mono_right hx h
  have hs : ulpExponent x ≤ ulpExponent y := by
    unfold ulpExponent
    exact sub_le_sub_right (max_le_max hlog le_rfl) 52
  rcases eq_or_lt_of_le hs with heq | hlt
  · have hpos := two_zpow_pos (ulpExponent y)
    unfold float64Pos
    rw [heq]
    exact mul_le_mul_of_nonneg_right
      (Int.cast_le.mpr (roundHalfEven_mono (div_le_div_of_nonneg_right h hpos.le))) hpos.le
  · have hlogy : -1022 ≤ Int.log 2 y := by
      by_contra hc
      have hc1 : Int.log 2 y ≤ -1022 := by omega
      have h1 : ulpExponent y = -1022 - 52 := by
        unfold ulpExponent
        rw [max_eq_right hc1]
      have h2 : -1022 - 52 ≤ ulpExponent x := by
        unfold ulpExponent
        exact sub_le_sub_right (le_max_right _ _) 52
      omega
    calc float64Pos x ≤ 2 ^ (ulpExponent x + 53) := float64Pos_le_zpow x
      _ ≤ 2 ^ (ulpExponent y + 52) := zpow_le_zpow_right₀ (by norm_num) (by omega)
      _ ≤ float64Pos y := zpow_le_float64Pos hy hlogy

theorem float64_mono {p q : ℚ} (h : p ≤ q) : float64 p ≤ float64 q := by
  unfold float64
  by_cases hp : 0 < p
  · have hq : 0 < q := lt_of_lt_of_le hp h
    rw [if_pos hp, if_pos hq]
    exact float64Pos_mono hp h
  · rw [if_neg hp]
    by_cases hp2 : p < 0
    · rw [if_pos hp2]
      have h1 : 0 ≤ float64Pos (-p) := float64Pos_nonneg (by linarith)
      by_cases hq : 0 < q
      · rw [if_pos hq]
        have := float64Pos_nonneg hq.le
        linarith
      · rw [if_neg hq]
        by_cases hq2 : q < 0
        · rw [if_pos hq2]
          have := float64Pos_mono (x := -q) (y := -p) (by linarith) (by linarith)
          linarith
        · rw [if_neg hq2]
          linarith
    · rw [if_neg hp2]
      have hp0 : p = 0 := le_antisymm (not_lt.mp hp) (not_lt.mp hp2)
      by_cases hq : 0 < q
      · rw [if_pos hq]
        exact float64Pos_nonneg hq.le
      · have hq2 : ¬ q < 0 := by
          rw [hp0] at h
          exact not_lt.mpr h
        rw [if_neg hq, if_neg hq2]

theorem abs_float64Pos_sub_le (x : ℚ) : |float64Pos x - x| ≤ 2 ^ ulpExponent x / 2 := by
  have hpos := two_zpow_pos (ulpExponent x)
  have hr := abs_roundHalfEven_sub_le (x / 2 ^ ulpExponent x)
  have hx : float64Pos x - x
      = ((roundHalfEven (x / 2 ^ ulpExponent x) : ℚ) - x / 2 ^ ulpExponent x)
        * 2 ^ ulpExponent x := by
    unfold float64Pos
    rw [sub_mul, div_mul_cancel₀ x hpos.ne']
  rw [hx, abs_mul, abs_of_pos hpos]
  calc |(roundHalfEven (x / 2 ^ ulpExponent x) : ℚ) - x / 2 ^ ulpExponent x| * 2 ^ ulpExponent x
      ≤ 1 / 2 * 2 ^ ulpExponent x := mul_le_mul_of_nonneg_right hr hpos.le
    _ = 2 ^ ulpExponent x / 2 := by ring

theorem log_lt_of_lt_zpow {x : ℚ} (hx : 0 < x) (e : ℤ) (h : x < 2 ^ e) : Int.log 2 x < e := by
  have := (Int.lt_zpow_iff_log_lt (b := 2) (by norm_num) (x := e) hx).mp (by simpa using h)
  exact this

theorem le_log_of_zpow_le {x : ℚ} (hx : 0 < x) (e : ℤ) (h : 2 ^ e ≤ x) : e ≤ Int.log 2 x := by
  have := (Int.zpow_le_iff_le_log (b := 2) (by norm_num) (x := e) hx).mp (by simpa using h)
  exact this

theorem ulpExponent_eq {x : ℚ} (hx : 0 < x) (e : ℤ) (he : -1022 ≤ e) (h1 : 2 ^ e ≤ x)
    (h2 : x < 2 ^ (e + 1)) : ulpExponent x = e - 52 := by
  have ha := le_log_of_zpow_le hx e h1
  have hb := log_lt_of_lt_zpow hx (e + 1) h2
  have hlog : Int.log 2 x = e := by omega
  unfold ulpExponent
  rw [hlog, max_eq_left he]

/-- In the range of the timestamps the rounding error is below a microsecond. -/
theorem abs_float64_sub_le (q : ℚ) (h : |q| < 17179869184) :
    |float64 q - q| ≤ 1 / 1048576 := by
  have key : ∀ x : ℚ, 0 < x → x < 17179869184 → |float64Pos x - x| ≤ 1 / 1048576 := by
    intro x hx hlt
    have hl := log_lt_of_lt_zpow hx 34 (by norm_num; exact hlt)
    have hs : ulpExponent x ≤ -19 := by
      unfold ulpExponent
      have : max (Int.log 2 x) (-1022) ≤ 33 := max_le (by omega) (by norm_num)
      omega
    have hz : (2 : ℚ) ^ ulpExponent x ≤ 2 ^ (-19 : ℤ) := zpow_le_zpow_right₀ (by norm_num) hs
    have he := abs_float64Pos_sub_le x
    have h19 : (2 : ℚ) ^ (-19 : ℤ) / 2 = 1 / 1048576 := by norm_num
    calc |float64Pos x - x| ≤ 2 ^ ulpExponent x / 2 := he
      _ ≤ 2 ^ (-19 : ℤ) / 2 := div_le_div_of_nonneg_right hz (by norm_num)
      _ = 1 / 1048576 := h19
  unfold float64
  by_cases hp : 0 < q
  · rw [if_pos hp]
    exact key q hp (by rwa [abs_of_pos hp] at h)
  · rw [if_neg hp]
    by_cases hn : q < 0
    · rw [if_pos hn]
      have := key (-q) (by linarith) (by rwa [abs_of_neg hn] at h)
      have he : -float64Pos (-q) - q = -(float64Pos (-q) - -q) := by ring
      rw [he, abs_neg]
      exact this
    · rw [if_neg hn]
      have hq0 : q = 0 := le_antisymm (not_lt.mp hp) (not_lt.mp hn)
      rw [hq0]
      norm_num

theorem float64Pos_intCast (i : ℤ) (h0 : 0 < i) (h : i < 9007199254740992) :
    float64Pos (i : ℚ) = i := by
  have hx : (0 : ℚ) < i := Int.cast_pos.mpr h0
  have h1 : (1 : ℚ) ≤ i := by exact_mod_cast h0
  have ha : 0 ≤ Int.log 2 (i : ℚ) := le_log_of_zpow_le hx 0 (by simpa using h1)
  have hb : Int.log 2 (i : ℚ) < 53 :=
    log_lt_of_lt_zpow hx 53 (by norm_num; exact_mod_cast h)
  have hs : ulpExponent (i : ℚ) = Int.log 2 (i : ℚ) - 52 := by
    unfold ulpExponent
    rw [max_eq_left (by omega)]
  obtain ⟨k, hk⟩ : ∃ k : ℕ, ulpExponent (i : ℚ) = -(k : ℤ) :=
    ⟨(52 - Int.log 2 (i : ℚ)).toNat, by rw [hs, Int.toNat_of_nonneg (by omega)]; ring⟩
  unfold float64Pos
  rw [hk, zpow_neg, zpow_natCast]
  have hpow : (0 : ℚ) < 2 ^ k := pow_pos (by norm_num) k
  have hy : (i : ℚ) / (2 ^ k)⁻¹ = ((i * 2 ^ k : ℤ) : ℚ) := by
    rw [div_inv_eq_mul]
    push_cast
    ring
  rw [hy, roundHalfEven_intCast]
  push_cast
  rw [mul_assoc, mul_inv_cancel₀ hpow.ne', mul_one]

/-- Integers below `2 ^ 53` in magnitude are binary64 values. -/
theorem float64_intCast (i : ℤ) (h1 : -9007199254740992 < i) (h2 : i < 9007199254740992) :
    float64 (i : ℚ) = i := by
  unfold float64
  by_cases hp : 0 < i
  · rw [if_pos (Int.cast_pos.mpr hp), float64Pos_intCast i hp h2]
  · rw [if_neg (by exact_mod_cast hp)]
    by_cases hn : i < 0
    · rw [if_pos (by exact_mod_cast hn)]
      have := float64Pos_intCast (-i) (by omega) (by omega)
      push_cast at this
      rw [this]
      ring
    · rw [if_neg (by exact_mod_cast hn)]
      have : i = 0 := by omega
      rw [this]
      simp

theorem roundHalfEven_eq_of_lt_half (y : ℚ) (k : ℤ) (h1 : (k : ℚ) ≤ y) (h2 : y < k + 1 / 2) :
    roundHalfEven y = k :=
  roundHalfEven_eq_of_abs_lt y k (by rw [abs_lt]; constructor <;> linarith)

theorem float64Pos_eq (x : ℚ) (e k : ℤ) (hx : 0 < x) (he : -1022 ≤ e) (h1 : 2 ^ e ≤ x)
    (h2 : x < 2 ^ (e + 1)) (hk : |x / 2 ^ (e - 52) - k| < 1 / 2) :
    float64Pos x = k * 2 ^ (e - 52) := by
  unfold float64Pos
  rw [ulpExponent_eq hx e he h1 h2, roundHalfEven_eq_of_abs_lt _ k hk]

theorem float64_example_2020 : float64 (1577934245678 / 1000) = 3309167959192109 / 2097152 := by
  unfold float64
  rw [if_pos (by norm_num)]
  rw [float64Pos_eq (1577934245678 / 1000) 30 6618335918384218 (by norm_num) (by norm_num)
    (by norm_num) (by norm_num) (by rw [abs_lt]; constructor <;> norm_num)]
  norm_num

theorem float64_example_2300 :
    float64 (-8032952073709 / 1000) = -526447547102593 / 65536 := by
  unfold float64
  rw [if_neg (by norm_num), if_pos (by norm_num)]
  rw [float64Pos_eq (-(-8032952073709 / 1000)) 32 8423160753641488 (by norm_num) (by norm_num)
    (by norm_num) (by norm_num) (by rw [abs_lt]; constructor <;> norm_num)]
  norm_num

theorem abs_roundHalfEven_sub_le_int (y : ℚ) (k : ℤ) :
    |(roundHalfEven y : ℚ) - y| ≤ |(k : ℚ) - y| := by
  have h := abs_roundHalfEven_sub_le y
  by_cases hk : k = roundHalfEven y
  · rw [hk]
  · have h1 : (1 : ℚ) ≤ |(k : ℚ) - roundHalfEven y| := by
      have : (1 : ℤ) ≤ |k - roundHalfEven y| := Int.one_le_abs (sub_ne_zero.mpr hk)
      exact_mod_cast this
    have h2 : |(k : ℚ) - roundHalfEven y| ≤ |(k : ℚ) - y| + |(roundHalfEven y : ℚ) - y| := by
      have := abs_sub_le (k : ℚ) y (roundHalfEven y)
      rwa [abs_sub_comm y (roundHalfEven y : ℚ)] at this
    linarith

theorem isFloat64_neg {v : ℚ} (h : isFloat64 v) : isFloat64 (-v) := by
  obtain ⟨m, e, hm, h1, h2, hv⟩ := h
  exact ⟨-m, e, by rwa [abs_neg], h1, h2, by rw [hv]; push_cast; ring⟩

/-- For a positive `x`, no `float64` value is nearer to `x` than `float64Pos x`. -/
theorem abs_float64Pos_sub_le_of_isFloat64 {x : ℚ} (hx : 0 < x) {v : ℚ} (hv : isFloat64 v) :
    |float64Pos x - x| ≤ |v - x| := by
  obtain ⟨m, e, hm, he1, _, hve⟩ := hv
  have hpos := two_zpow_pos (ulpExponent x)
  have hxs : x = x / 2 ^ ulpExponent x * 2 ^ ulpExponent x := (div_mul_cancel₀ x hpos.ne').symm
  have multiple : ∀ k : ℤ, |float64Pos x - x| ≤ |(k : ℚ) * 2 ^ ulpExponent x - x| := by
    intro k
    have h1 : float64Pos x - x
        = ((roundHalfEven (x / 2 ^ ulpExponent x) : ℚ) - x / 2 ^ ulpExponent x)
          * 2 ^ ulpExponent x := by
      unfold float64Pos
      rw [sub_mul, div_mul_cancel₀ x hpos.ne']
    have h2 : (k : ℚ) * 2 ^ ulpExponent x - x
        = ((k : ℚ) - x / 2 ^ ulpExponent x) * 2 ^ ulpExponent x := by
      rw [sub_mul, div_mul_cancel₀ x hpos.ne']
    rw [h1, h2, abs_mul, abs_mul]
    exact mul_le_mul_of_nonneg_right (abs_roundHalfEven_sub_le_int _ k) (abs_nonneg _)
  by_cases hes : ulpExponent x ≤ e
  · obtain ⟨d, hd⟩ : ∃ d : ℕ, e = ulpExponent x + d :=
      ⟨(e - ulpExponent x).toNat, by rw [Int.toNat_of_nonneg (by omega)]; ring⟩
    have hk : v = ((m * 2 ^ d : ℤ) : ℚ) * 2 ^ ulpExponent x := by
      rw [hve, hd, zpow_add₀ (by norm_num : (2 : ℚ) ≠ 0), zpow_natCast]
      push_cast
      ring
    rw [hk]
    exact multiple _
  · have hes1 : e + 1 ≤ ulpExponent x := by omega
    have hlog : -1022 ≤ Int.log 2 x := by
      by_contra hc
      have hc1 : Int.log 2 x ≤ -1022 := by omega
      have : ulpExponent x = -1022 - 52 := by
        unfold ulpExponent
        rw [max_eq_right hc1]
      omega
    have hE : ulpExponent x + 52 = Int.log 2 x := by
      unfold ulpExponent
      rw [max_eq_left hlog]
      omega
    have hle : (2 : ℚ) ^ (ulpExponent x + 52) ≤ x := by
      rw [hE]
      exact two_zpow_log_le hx
    have hsplit : (2 : ℚ) ^ (ulpExponent x + 52)
        = ((4503599627370496 : ℤ) : ℚ) * 2 ^ ulpExponent x := by
      rw [zpow_add₀ (by norm_num : (2 : ℚ) ≠ 0), mul_comm]
      norm_num
    have hvlt : v < 2 ^ (ulpExponent x + 52) := by
      have h1 : v ≤ |(m : ℚ)| * 2 ^ e := by
        rw [hve]
        exact mul_le_mul_of_nonneg_right (le_abs_self _) (two_zpow_pos e).le
      have h2 : |(m : ℚ)| < 9007199254740992 := by exact_mod_cast hm
      have h3 : |(m : ℚ)| * 2 ^ e < 9007199254740992 * 2 ^ e :=
        mul_lt_mul_of_pos_right h2 (two_zpow_pos e)
      have h4 : (9007199254740992 : ℚ) * 2 ^ e = 2 ^ (e + 53) := by
        rw [zpow_add₀ (by norm_num : (2 : ℚ) ≠ 0), mul_comm]
        norm_num
      have h5 : (2 : ℚ) ^ (e + 53) ≤ 2 ^ (ulpExponent x + 52) :=
        zpow_le_zpow_right₀ (by norm_num) (by omega)
      linarith
    have hm1 := multiple 4503599627370496
    have h6 : |(2 : ℚ) ^ (ulpExponent x + 52) - x| = x - 2 ^ (ulpExponent x + 52) := by
      rw [abs_of_nonpos (by linarith)]
      ring
    have h7 : |v - x| = x - v := by
      rw [abs_of_neg (by linarith)]
      ring
    rw [← hsplit, h6] at hm1
    rw [h7]
    linarith

/-- No `float64` value is nearer to `q` than `float64 q`. -/
theorem abs_float64_sub_le_of_isFloat64 (q : ℚ) {v : ℚ} (hv : isFloat64 v) :
    |float64 q - q| ≤ |v - q| := by
  unfold float64
  by_cases hp : 0 < q
  · rw [if_pos hp]
    exact abs_float64Pos_sub_le_of_isFloat64 hp hv
  · rw [if_neg hp]
    by_cases hn : q < 0
    · rw [if_pos hn]
      have := abs_float64Pos_sub_le_of_isFloat64 (x := -q) (by linarith) (isFloat64_neg hv)
      have h1 : -float64Pos (-q) - q = -(float64Pos (-q) - -q) := by ring
      have h2 : v - q = -(-v - -q) := by ring
      rw [h1, h2, abs_neg, abs_neg]
      exact this
    · rw [if_neg hn]
      have hq0 : q = 0 := le_antisymm (not_lt.mp hp) (not_lt.mp hn)
      rw [hq0]
      simp

theorem isFloat64_float64Pos {x : ℚ} (hx : 0 < x) (hlt : x < 2 ^ (1023 : ℤ)) :
    isFloat64 (float64Pos x) := by
  have hpos := two_zpow_pos (ulpExponent x)
  have hl := log_lt_of_lt_zpow hx 1023 hlt
  have hs1 : -1074 ≤ ulpExponent x := by
    unfold ulpExponent
    have := le_max_right (Int.log 2 x) (-1022)
    omega
  have hs2 : ulpExponent x ≤ 970 := by
    unfold ulpExponent
    have : max (Int.log 2 x) (-1022) ≤ 1022 := max_le (by omega) (by norm_num)
    omega
  have h0 : (0 : ℤ) ≤ roundHalfEven (x / 2 ^ ulpExponent x) :=
    le_roundHalfEven_of_le (by simpa using div_nonneg hx.le hpos.le)
  have hub : roundHalfEven (x / 2 ^ ulpExponent x) ≤ 9007199254740992 := by
    have hsplit : (2 : ℚ) ^ (ulpExponent x + 53)
        = ((9007199254740992 : ℤ) : ℚ) * 2 ^ ulpExponent x := by
      rw [zpow_add₀ (by norm_num : (2 : ℚ) ≠ 0), mul_comm]
      norm_num
    have hexp : Int.log 2 x + 1 ≤ ulpExponent x + 53 := by
      have := le_max_left (Int.log 2 x) (-1022)
      unfold ulpExponent
      omega
    have hx2 : x ≤ 2 ^ (ulpExponent x + 53) :=
      le_trans (lt_two_zpow_log_succ x).le (zpow_le_zpow_right₀ (by norm_num) hexp)
    apply roundHalfEven_le_of_le
    rw [div_le_iff₀ hpos, ← hsplit]
    exact hx2
  rcases eq_or_lt_of_le hub with heq | hlt2
  · refine ⟨4503599627370496, ulpExponent x + 1, by norm_num, by omega, by omega, ?_⟩
    unfold float64Pos
    rw [heq, zpow_add₀ (by norm_num : (2 : ℚ) ≠ 0)]
    push_cast
    ring
  · exact ⟨roundHalfEven (x / 2 ^ ulpExponent x), ulpExponent x,
      by rw [abs_of_nonneg h0]; exact hlt2, hs1, by omega, rfl⟩

/-- Below `2 ^ 1023` in magnitude, `float64 q` is a `float64` value. -/
theorem isFloat64_float64 (q : ℚ) (h : |q| < 2 ^ (1023 : ℤ)) : isFloat64 (float64 q) := by
  unfold float64
  by_cases hp : 0 < q
  · rw [if_pos hp]
    exact isFloat64_float64Pos hp (by rwa [abs_of_pos hp] at h)
  · rw [if_neg hp]
    by_cases hn : q < 0
    · rw [if_pos hn]
      exact isFloat64_neg (isFloat64_float64Pos (by linarith) (by rwa [abs_of_neg hn] at h))
    · rw [if_neg hn]
      exact ⟨0, 0, by norm_num, by norm_num, by norm_num, by simp⟩

/-! ## The timestamp of a captured time -/

theorem tdiv_Millisecond_bounds (a : Int) (h1 : -9223372036854775808 ≤ a)
    (h2 : a < 9223372036854775808) :
    -9223372036855 < a.tdiv Millisecond ∧ a.tdiv Millisecond < 9223372036855 := by
  have hnn : (0 : Int) ≤ 1000000 := by decide
  unfold Millisecond
  by_cases ha : 0 ≤ a
  · rw [Int.tdiv_eq_ediv ha hnn]
    omega
  · have ha1 : 0 ≤ -a := by omega
    have hna : a.tdiv 1000000 = -((-a) / 1000000) := by
      rw [← Int.tdiv_eq_ediv ha1 hnn, Int.neg_tdiv, neg_neg]
    rw [hna]
    omega

/-- The conversion of the millisecond count to `float64` is exact, so the
timestamp is the `float64` quotient of that count by 1000. -/
theorem TimeUnix_eq (t : Time) :
    TimeUnix t = float64 (((t.UnixNano.tdiv Millisecond : Int) : ℚ) / 1000) := by
  have hw := wrapInt64_range t.nanos
  have hb := tdiv_Millisecond_bounds t.UnixNano hw.1 hw.2
  unfold TimeUnix
  rw [float64_intCast _ (by omega) (by omega)]

/-- In the range of an `int64` the count of `UnixNano` is the true count. -/
theorem TimeUnix_of_range (t : Time) (h1 : -9223372036854775808 ≤ t.nanos)
    (h2 : t.nanos < 9223372036854775808) :
    TimeUnix t = float64 (((t.nanos.tdiv Millisecond : Int) : ℚ) / 1000) := by
  rw [TimeUnix_eq, Time.UnixNano, wrapInt64_of_range _ h1 h2]

theorem TimeUnix_mono_of_range (s t : Time) (h1 : -9223372036854775808 ≤ s.nanos)
    (h : s.nanos ≤ t.nanos) (h2 : t.nanos < 9223372036854775808) :
    TimeUnix s ≤ TimeUnix t := by
  rw [TimeUnix_of_range s h1 (by omega), TimeUnix_of_range t (by omega) h2]
  have hc : ((s.nanos.tdiv Millisecond : Int) : ℚ) ≤ ((t.nanos.tdiv Millisecond : Int) : ℚ) :=
    Int.cast_le.mpr (tdiv_Millisecond_mono _ _ h)
  exact float64_mono (div_le_div_of_nonneg_right hc (by norm_num))

/-- The timestamp of 2020-01-02T03:04:05.678Z, whatever follows the
millisecond: the `float64` value `1577934245.677999973297119140625`. -/
theorem TimeUnix_eq_2020 (r : Int) (h0 : 0 ≤ r) (h1 : r < 1000000) :
    TimeUnix { nanos := 1577934245678000000 + r } = 3309167959192109 / 2097152 := by
  rw [TimeUnix_of_range _ (by show (-9223372036854775808 : Int) ≤ 1577934245678000000 + r; omega)
    (by show (1577934245678000000 + r : Int) < 9223372036854775808; omega)]
  have hd : (1577934245678000000 + r : Int).tdiv Millisecond = 1577934245678 := by
    unfold Millisecond
    rw [Int.tdiv_eq_ediv (by omega) (by decide)]
    omega
  show float64 ((((1577934245678000000 + r : Int).tdiv Millisecond : Int) : ℚ) / 1000) = _
  rw [hd]
  push_cast
  exact float64_example_2020

/-- The timestamp of 2300-01-01T00:00:00Z, a time whose count of nanoseconds
`UnixNano` wraps to a negative `int64`. -/
theorem TimeUnix_eq_2300 :
    TimeUnix { nanos := 10413792000000000000 } = -526447547102593 / 65536 := by
  have hd : (Time.UnixNano { nanos := 10413792000000000000 }).tdiv Millisecond
      = -8032952073709 := by decide
  rw [TimeUnix_eq, hd]
  push_cast
  exact float64_example_2300

/-! ## The keys of the map and the log lines of the loop -/

/-- The keys of the map of extra fields: the eleven fixed keys, the keys of the
copied labels, and `_swarm_node` on a container with a cluster node. -/
theorem mem_mapKeys_extraFields (env : Env) (m : router.Message) (extra : Fields)
    (hx : extraFields env m = some extra) (key : GoString) :
    key ∈ mapKeys extra ↔
      key ∈ coreKeys ∨ derives env m.Container.Config.Labels key ∨
        (m.Container.Node ≠ none ∧ key = str "_swarm_node") := by
  have hne : m.Container.Name ≠ [] := fun hc => by
    rw [(extraFields_eq_none_iff env m).mpr hc] at hx
    exact Option.noConfusion hx
  rw [extraFields_of_ne_nil env m hne] at hx
  cases hn : m.Container.Node with
  | none =>
    rw [hn] at hx
    simp only [Option.some.injEq] at hx
    rw [← hx, mem_mapKeys_labelFold, mapKeys_coreFields]
    simp
  | some node =>
    rw [hn] at hx
    simp only [Option.some.injEq] at hx
    rw [← hx, mem_mapKeys_mapSet, mem_mapKeys_labelFold, mapKeys_coreFields]
    simp only [ne_eq, not_false_eq_true, true_and, reduceCtorEq]
    constructor
    · rintro (h | h | h)
      · exact Or.inr (Or.inr h)
      · exact Or.inl h
      · exact Or.inr (Or.inl h)
    · rintro (h | h | h)
      · exact Or.inr (Or.inl h)
      · exact Or.inr (Or.inr h)
      · exact Or.inl h

theorem eq_underscore_of_lowerByte (c : Nat) (h : lowerByte c = 95) : c = 95 := by
  unfold lowerByte at h
  split at h <;> omega

/-- The fifth byte of the name of a copied label is `_`, so the key the label is
stored under begins with `_`. -/
theorem drop_four_of_qualifies (env : Env) (name : GoString)
    (hU : ∀ s, isASCII s = false → env.unicodeLower s ≠ str "gelf_")
    (h : qualifies env name = true) : beginsWithUnderscore (name.drop 4) := by
  obtain ⟨hlen, hmark⟩ := specMarker_of_qualifies env name hU h
  have hg : str "gelf_" = [103, 101, 108, 102, 95] := by decide
  have hu : str "_" = [95] := by decide
  simp only [specMarker, decide_eq_true_eq, hg] at hmark
  match name, hlen, hmark with
  | a :: b :: c :: d :: e :: rest, _, hmark =>
    simp only [List.take_succ_cons, List.take_zero, List.map_cons, List.map_nil, List.cons.injEq,
      and_true] at hmark
    have he := eq_underscore_of_lowerByte e hmark.2.2.2.2
    refine ⟨rest, ?_⟩
    rw [hu, he]
    rfl

theorem failedSends_cons (a : GelfAdapter) (first : Nat) (msg : gelf.Message)
    (msgs : List gelf.Message) :
    failedSends a first (msg :: msgs) =
      (if (a.writer.WriteMessage first msg).isSome then 1 else 0)
        + failedSends a (first + 1) msgs := by
  simp only [failedSends, List.enumFrom_cons, List.countP_cons]
  omega

/-- On a stream in which no container name is empty, `Stream` writes one log
line for each record whose enrichment fails and one for each failed send, and
no other. -/
theorem Stream_logs_of_names_ne_nil (env : Env) (a : GelfAdapter)
    (records : List router.Message) (r : Run)
    (h : ∀ m ∈ records, m.Container.Name ≠ []) :
    (GelfAdapter.Stream env a records r).logs.length =
      r.logs.length + records.countP (enrichmentFails env)
        + failedSends a r.sent.length (records.filterMap (built env)) := by
  induction records generalizing r with
  | nil => simp [GelfAdapter.Stream, failedSends]
  | cons m rest ih =>
    have hrest : ∀ m1 ∈ rest, m1.Container.Name ≠ [] :=
      fun m1 hm1 => h m1 (List.mem_cons_of_mem _ hm1)
    have hm : buildMessage env m ≠ Outcome.panic := by
      rw [Ne, buildMessage_eq_panic_iff]
      exact h m (List.mem_cons_self _ _)
    unfold GelfAdapter.Stream
    cases hb : buildMessage env m with
    | panic => exact absurd hb hm
    | error e =>
      have := ih { r with logs := r.logs ++ [logLine e] } hrest
      simp only [List.length_append, List.length_singleton] at this
      simp only [this, built, enrichmentFails, hb, List.countP_cons, List.filterMap_cons,
        if_true]
      omega
    | ok msg =>
      cases hw : a.writer.WriteMessage r.sent.length msg with
      | some err =>
        have := ih { r with sent := r.sent ++ [msg], logs := r.logs ++ [logLine err] } hrest
        simp only [List.length_append, List.length_singleton] at this
        simp only [this, built, enrichmentFails, hb, List.countP_cons, List.filterMap_cons,
          failedSends_cons, hw, Option.isSome_some, if_true]
        simp
        omega
      | none =>
        have := ih { r with sent := r.sent ++ [msg] } hrest
        simp only [List.length_append, List.length_singleton] at this
        simp only [this, built, enrichmentFails, hb, List.countP_cons, List.filterMap_cons,
          failedSends_cons, hw, Option.isSome_none]
        simp

/-! ## The claims -/

/-- C1 (defect of the code). On a record whose container name is the empty
string, `getExtraFields` returns neither a field mapping nor an error value:
the slice `m.Container.Name[1:]` is out of range, so `getExtraFields`, the
message construction of `Stream` and the run of `Stream` all end in a runtime
panic. -/
theorem getExtraFields_empty_name_panics :
    getExtraFields sampleEnv (recordNamed (str "") []) = Outcome.panic ∧
      buildMessage sampleEnv (recordNamed (str "") []) = Outcome.panic ∧
      (GelfAdapter.Stream sampleEnv sampleAdapter [recordNamed (str "") []] Run.start).panicked
        = true := by
  decide

/-- C2 (defect of the code, the one of C1). On the stream of a record with an
empty container name followed by the sample record, the enrichment of the
second record succeeds, so its message is the one message the transport is to
receive; `Stream` hands the transport nothing, because the run ends in the
panic of the first record. -/
theorem Stream_stops_at_empty_name :
    [recordNamed (str "") [], sampleRecord []].filterMap (built sampleEnv)
        = [sampleMessage (sampleRecord []) (str "hello") gelf.LOG_INFO] ∧
      (GelfAdapter.Stream sampleEnv sampleAdapter
        [recordNamed (str "") [], sampleRecord []] Run.start).sent = [] ∧
      (GelfAdapter.Stream sampleEnv sampleAdapter
        [recordNamed (str "") [], sampleRecord []] Run.start).panicked = true :=
  ⟨rfl, by decide, by decide⟩

/-- C3. When `Stream` builds a message for a record, its level is
`gelf.LOG_ERR` if the source of the record is exactly `stderr` and
`gelf.LOG_INFO` for every other source; no other level is produced. -/
theorem buildMessage_level (env : Env) (m : router.Message) (msg : gelf.Message)
    (h : buildMessage env m = Outcome.ok msg) :
    (m.Source = str "stderr" → msg.Level = gelf.LOG_ERR) ∧
      (m.Source ≠ str "stderr" → msg.Level = gelf.LOG_INFO) ∧
      (msg.Level = gelf.LOG_ERR ∨ msg.Level = gelf.LOG_INFO) := by
  obtain ⟨extra, _, hmsg⟩ := (buildMessage_eq_ok_iff env m msg).mp h
  subst hmsg
  by_cases hs : m.Source = str "stderr" <;> simp [hs]

/-- Witness of C3: the level of the message built for the sample record read
from standard error is `gelf.LOG_ERR`. -/
theorem buildMessage_level_witness :
    buildMessage sampleEnv stderrRecord
        = Outcome.ok (sampleMessage stderrRecord (str "hello") gelf.LOG_ERR) ∧
      ((stderrRecord.Source = str "stderr" →
          (sampleMessage stderrRecord (str "hello") gelf.LOG_ERR).Level = gelf.LOG_ERR) ∧
        (stderrRecord.Source ≠ str "stderr" →
          (sampleMessage stderrRecord (str "hello") gelf.LOG_ERR).Level = gelf.LOG_INFO) ∧
        ((sampleMessage stderrRecord (str "hello") gelf.LOG_ERR).Level = gelf.LOG_ERR ∨
          (sampleMessage stderrRecord (str "hello") gelf.LOG_ERR).Level = gelf.LOG_INFO)) :=
  ⟨rfl, buildMessage_level sampleEnv stderrRecord _ rfl⟩

/-- C4. When `Stream` builds a message for a record, its short text is the
literal `None` if the payload of the record is the empty string and is the
payload, unchanged, otherwise; so the short text is never empty. -/
theorem buildMessage_short (env : Env) (m : router.Message) (msg : gelf.Message)
    (h : buildMessage env m = Outcome.ok msg) :
    (m.Data = str "" → msg.Short = str "None") ∧
      (m.Data ≠ str "" → msg.Short = m.Data) ∧
      msg.Short ≠ str "" := by
  obtain ⟨extra, _, hmsg⟩ := (buildMessage_eq_ok_iff env m msg).mp h
  subst hmsg
  rw [str_empty]
  by_cases hd : m.Data = []
  · simp only [hd, if_true]
    decide
  · simp [hd]

/-- Witness of C4: the short text of the message built for the sample record
with an empty payload is `None`. -/
theorem buildMessage_short_witness :
    buildMessage sampleEnv emptyRecord
        = Outcome.ok (sampleMessage emptyRecord (str "None") gelf.LOG_INFO) ∧
      ((emptyRecord.Data = str "" →
          (sampleMessage emptyRecord (str "None") gelf.LOG_INFO).Short = str "None") ∧
        (emptyRecord.Data ≠ str "" →
          (sampleMessage emptyRecord (str "None") gelf.LOG_INFO).Short = emptyRecord.Data) ∧
        (sampleMessage emptyRecord (str "None") gelf.LOG_INFO).Short ≠ str "") :=
  ⟨rfl, buildMessage_short sampleEnv emptyRecord _ rfl⟩

/-- C5, as stated, fails. A label named exactly `gelf_` carries the marker but
is not copied, so the key `_` is absent; of the two labels `GELF_x` and
`gelf_x`, visited in this order, only the value of the second is kept under
`_x`; and on a container with a cluster node the key of the label
`gelf_swarm_node` holds the name of the node, not the value of the label. -/
theorem marked_label_not_always_copied :
    (specMarker (str "gelf_") = true ∧
      getExtraFields sampleEnv (sampleRecord [(str "gelf_", str "v")]) ≠ Outcome.panic ∧
      fieldOf sampleEnv (sampleRecord [(str "gelf_", str "v")]) ((str "gelf_").drop 4) = none) ∧
    (specMarker (str "GELF_x") = true ∧
      fieldOf sampleEnv (sampleRecord [(str "GELF_x", str "1"), (str "gelf_x", str "2")])
        ((str "GELF_x").drop 4) = some (Value.str (str "2"))) ∧
    (specMarker (str "gelf_swarm_node") = true ∧
      fieldOf sampleEnv (nodeRecord [(str "gelf_swarm_node", str "v")])
        ((str "gelf_swarm_node").drop 4) = some (Value.str (str "n1"))) := by
  decide

/-- C5, amended. When `getExtraFields` does not abort, a label whose name is
longer than five bytes and whose first five bytes are `gelf_` up to ASCII case
is stored under its name minus the first four bytes, with its value, provided
that every label copied under the same key carries the same value and that the
key is not `_swarm_node` on a container with a cluster node. -/
theorem marked_label_copied (env : Env) (m : router.Message) (extra : Fields)
    (name value : GoString)
    (hx : extraFields env m = some extra)
    (hmem : (name, value) ∈ m.Container.Config.Labels)
    (hlen : name.length > 5)
    (hmark : specMarker name = true)
    (hsame : ∀ nl ∈ m.Container.Config.Labels,
      qualifies env nl.1 = true → nl.1.drop 4 = name.drop 4 → nl.2 = value)
    (hnode : m.Container.Node = none ∨ name.drop 4 ≠ str "_swarm_node") :
    mapGet extra (name.drop 4) = some (Value.str value) := by
  have hne : m.Container.Name ≠ [] := fun hc => by
    rw [(extraFields_eq_none_iff env m).mpr hc] at hx
    exact Option.noConfusion hx
  have hq := qualifies_of_specMarker env name hlen hmark
  have hfold : ∀ base, mapGet (labelFold env m.Container.Config.Labels base) (name.drop 4)
      = some (Value.str value) := fun base =>
    mapGet_labelFold_of_derives env _ base (name.drop 4) value
      ⟨(name, value), hmem, hq, rfl, rfl⟩ hsame
  rw [extraFields_of_ne_nil env m hne] at hx
  cases hn : m.Container.Node with
  | none =>
    rw [hn] at hx
    simp only [Option.some.injEq] at hx
    rw [← hx]
    exact hfold _
  | some node =>
    rw [hn] at hx hnode
    simp only [Option.some.injEq] at hx
    have hk : ¬ str "_swarm_node" = name.drop 4 := by
      rcases hnode with h | h
      · exact absurd h (by simp)
      · exact fun hc => h hc.symm
    rw [← hx, mapGet_mapSet, if_neg hk]
    exact hfold _

/-- Witness of C5: the label `gelf_foo` with value `v` on the sample record
gives the key `_foo` with value `v`. -/
theorem marked_label_copied_witness :
    extraFields sampleEnv (sampleRecord [(str "gelf_foo", str "v")])
        = some (labelFold sampleEnv [(str "gelf_foo", str "v")]
            (coreFields sampleEnv (sampleRecord [(str "gelf_foo", str "v")]) (str "web"))) ∧
      specMarker (str "gelf_foo") = true ∧
      (str "gelf_foo").drop 4 = str "_foo" ∧
      mapGet (labelFold sampleEnv [(str "gelf_foo", str "v")]
          (coreFields sampleEnv (sampleRecord [(str "gelf_foo", str "v")]) (str "web")))
        ((str "gelf_foo").drop 4) = some (Value.str (str "v")) :=
  ⟨rfl, by decide, by decide,
    marked_label_copied sampleEnv (sampleRecord [(str "gelf_foo", str "v")]) _
      (str "gelf_foo") (str "v") rfl (by decide) (by decide) (by decide) (by decide)
      (by decide)⟩

/-- C6, as stated, fails. The label `gelf_container_id` replaces the container
id under `_container_id`. -/
theorem core_value_replaced_by_label :
    (sampleRecord [(str "gelf_container_id", str "x")]).Container.Name ≠ [] ∧
      (sampleRecord [(str "gelf_container_id", str "x")]).Container.ID = str "c0ffee" ∧
      fieldOf sampleEnv (sampleRecord [(str "gelf_container_id", str "x")]) (str "_container_id")
        = some (Value.str (str "x")) := by
  decide

/-- C6, amended. On a record with a non-empty container name, `getExtraFields`
does not abort and each of the ten fixed keys that no copied label is stored
under has its specified value. -/
theorem core_values (env : Env) (m : router.Message) (h : m.Container.Name ≠ []) :
    ∃ extra, extraFields env m = some extra ∧
      (¬ derives env m.Container.Config.Labels (str "_container_id") →
        mapGet extra (str "_container_id") = some (Value.str m.Container.ID)) ∧
      (¬ derives env m.Container.Config.Labels (str "_image_id") →
        mapGet extra (str "_image_id") = some (Value.str m.Container.Image)) ∧
      (¬ derives env m.Container.Config.Labels (str "_image_name") →
        mapGet extra (str "_image_name") = some (Value.str m.Container.Config.Image)) ∧
      (¬ derives env m.Container.Config.Labels (str "_command") →
        mapGet extra (str "_command")
          = some (Value.str (Join m.Container.Config.Cmd (str " ")))) ∧
      (¬ derives env m.Container.Config.Labels (str "_created") →
        mapGet extra (str "_created") = some (Value.time m.Container.Created)) ∧
      (¬ derives env m.Container.Config.Labels (str "_rancher_stack_service") →
        mapGet extra (str "_rancher_stack_service")
          = some (Value.str
              (labelGet m.Container.Config.Labels (str "io.rancher.stack_service.name")))) ∧
      (str "io.rancher.stack_service.name" ∉ m.Container.Config.Labels.map Prod.fst →
        labelGet m.Container.Config.Labels (str "io.rancher.stack_service.name") = str "") ∧
      (¬ derives env m.Container.Config.Labels (str "_rancher_host") →
        mapGet extra (str "_rancher_host") = some (Value.str env.hostname)) ∧
      (¬ derives env m.Container.Config.Labels (str "_rancher_environment") →
        mapGet extra (str "_rancher_environment") = some (Value.str env.rancherEnvironment)) ∧
      (¬ derives env m.Container.Config.Labels (str "_logspout_instance") →
        mapGet extra (str "_logspout_instance") = some (Value.str env.osHostname)) ∧
      (¬ derives env m.Container.Config.Labels (str "_logspout_source") →
        mapGet extra (str "_logspout_source") = some (Value.str m.Source)) := by
  cases hx : extraFields env m with
  | none => exact absurd ((extraFields_eq_none_iff env m).mp hx) h
  | some extra =>
    refine ⟨extra, rfl, ?_, ?_, ?_, ?_, ?_, ?_, ?_, ?_, ?_, ?_, ?_⟩
    · intro hd
      rw [mapGet_extraFields_core env m extra _ hx (by decide) hd]
      rfl
    · intro hd
      rw [mapGet_extraFields_core env m extra _ hx (by decide) hd]
      rfl
    · intro hd
      rw [mapGet_extraFields_core env m extra _ hx (by decide) hd]
      rfl
    · intro hd
      rw [mapGet_extraFields_core env m extra _ hx (by decide) hd]
      rfl
    · intro hd
      rw [mapGet_extraFields_core env m extra _ hx (by decide) hd]
      rfl
    · intro hd
      rw [mapGet_extraFields_core env m extra _ hx (by decide) hd]
      rfl
    · intro hk
      rw [str_empty]
      exact labelGet_of_not_mem _ _ hk
    · intro hd
      rw [mapGet_extraFields_core env m extra _ hx (by decide) hd]
      rfl
    · intro hd
      rw [mapGet_extraFields_core env m extra _ hx (by decide) hd]
      rfl
    · intro hd
      rw [mapGet_extraFields_core env m extra _ hx (by decide) hd]
      rfl
    · intro hd
      rw [mapGet_extraFields_core env m extra _ hx (by decide) hd]
      rfl

/-- Witness of C6: the container id, the command and the absent service label
of the sample record without labels. -/
theorem core_values_witness :
    (sampleRecord []).Container.Name ≠ [] ∧
      ∃ extra, extraFields sampleEnv (sampleRecord []) = some extra ∧
        mapGet extra (str "_container_id") = some (Value.str (str "c0ffee")) ∧
        mapGet extra (str "_command") = some (Value.str (str "nginx -g")) ∧
        mapGet extra (str "_rancher_stack_service") = some (Value.str (str "")) := by
  obtain ⟨extra, hx, h1, _, _, h4, _, h6, _⟩ :=
    core_values sampleEnv (sampleRecord []) (by decide)
  exact ⟨by decide, extra, hx, h1 (by decide), h4 (by decide), h6 (by decide)⟩

/-- C7, as stated, fails. On the sample container, named `/web`, the label
`gelf_container_name` replaces the name under `_container_name`. -/
theorem container_name_replaced_by_label :
    getExtraFields sampleEnv (sampleRecord [(str "gelf_container_name", str "x")])
        ≠ Outcome.panic ∧
      (sampleRecord [(str "gelf_container_name", str "x")]).Container.Name = str "/web" ∧
      fieldOf sampleEnv (sampleRecord [(str "gelf_container_name", str "x")])
        (str "_container_name") = some (Value.str (str "x")) := by
  decide

/-- The slice `m.Container.Name[1:]` removes the first byte of the name whatever
it is: the container name `web` is stored as `eb`. -/
theorem container_name_without_slash :
    fieldOf sampleEnv (recordNamed (str "web") []) (str "_container_name")
      = some (Value.str (str "eb")) := by
  decide

/-- C7, amended. On a record whose container name begins with `/` and that has
no copied label stored under `_container_name`, `getExtraFields` does not abort
and the value under `_container_name` is the name without its leading `/`. -/
theorem container_name_stripped (env : Env) (m : router.Message) (rest : GoString)
    (hname : m.Container.Name = str "/" ++ rest)
    (hd : ¬ derives env m.Container.Config.Labels (str "_container_name")) :
    ∃ extra, extraFields env m = some extra ∧
      mapGet extra (str "_container_name") = some (Value.str rest) := by
  have hne : m.Container.Name ≠ [] := by
    rw [hname]
    exact fun hc => List.noConfusion hc
  cases hx : extraFields env m with
  | none => exact absurd ((extraFields_eq_none_iff env m).mp hx) hne
  | some extra =>
    refine ⟨extra, rfl, ?_⟩
    rw [mapGet_extraFields_core env m extra _ hx (by decide) hd, hname]
    rfl

/-- Witness of C7: the container name `/web` of the sample record is stored as
`web`. -/
theorem container_name_stripped_witness :
    (sampleRecord []).Container.Name = str "/" ++ str "web" ∧
      ∃ extra, extraFields sampleEnv (sampleRecord []) = some extra ∧
        mapGet extra (str "_container_name") = some (Value.str (str "web")) :=
  ⟨by decide, container_name_stripped sampleEnv (sampleRecord []) (str "web") (by decide)
    (by decide)⟩

/-- C8, as stated, fails. The label `GELF_` carries the marker, and its name
minus the first four bytes is `_`, but the map of the record has no key `_`. -/
theorem bare_marker_key_absent :
    specMarker (str "GELF_") = true ∧
      (str "GELF_").drop 4 = str "_" ∧
      getExtraFields sampleEnv (sampleRecord [(str "GELF_", str "v")]) ≠ Outcome.panic ∧
      (extraFields sampleEnv (sampleRecord [(str "GELF_", str "v")])).map
        (fun extra => decide (str "_" ∈ mapKeys extra)) = some false := by
  decide

/-- C8, amended. When `getExtraFields` does not abort, the keys of its map are
exactly the eleven fixed keys, the names minus their first four bytes of the
labels that are longer than five bytes and begin with `gelf_` up to ASCII case,
and `_swarm_node` when the container has a cluster node; no key occurs twice.
The hypothesis on `unicodeLower` is a fact about `strings.ToLower`: its Unicode
branch does not produce `gelf_`. -/
theorem extraFields_keys (env : Env) (m : router.Message) (extra : Fields)
    (hx : extraFields env m = some extra)
    (hU : ∀ s, isASCII s = false → env.unicodeLower s ≠ str "gelf_") :
    (∀ key, key ∈ mapKeys extra ↔
        key ∈ coreKeys ∨
        (∃ nl ∈ m.Container.Config.Labels,
          nl.1.length > 5 ∧ specMarker nl.1 = true ∧ nl.1.drop 4 = key) ∨
        (m.Container.Node ≠ none ∧ key = str "_swarm_node")) ∧
      (mapKeys extra).Nodup := by
  have hne : m.Container.Name ≠ [] := fun hc => by
    rw [(extraFields_eq_none_iff env m).mpr hc] at hx
    exact Option.noConfusion hx
  have hder : ∀ key, derives env m.Container.Config.Labels key ↔
      ∃ nl ∈ m.Container.Config.Labels,
        nl.1.length > 5 ∧ specMarker nl.1 = true ∧ nl.1.drop 4 = key := by
    intro key
    constructor
    · rintro ⟨nl, hnl, hq, hk⟩
      obtain ⟨h1, h2⟩ := specMarker_of_qualifies env nl.1 hU hq
      exact ⟨nl, hnl, h1, h2, hk⟩
    · rintro ⟨nl, hnl, h1, h2, hk⟩
      exact ⟨nl, hnl, qualifies_of_specMarker env nl.1 h1 h2, hk⟩
  have hnd : (mapKeys (labelFold env m.Container.Config.Labels
      (coreFields env m (m.Container.Name.drop 1)))).Nodup :=
    nodup_mapKeys_labelFold env _ _ (by rw [mapKeys_coreFields]; exact nodup_coreKeys)
  rw [extraFields_of_ne_nil env m hne] at hx
  cases hn : m.Container.Node with
  | none =>
    rw [hn] at hx
    simp only [Option.some.injEq] at hx
    subst hx
    refine ⟨fun key => ?_, hnd⟩
    rw [mem_mapKeys_labelFold, mapKeys_coreFields, hder]
    simp
  | some node =>
    rw [hn] at hx
    simp only [Option.some.injEq] at hx
    subst hx
    refine ⟨fun key => ?_, nodup_mapKeys_mapSet _ _ _ hnd⟩
    rw [mem_mapKeys_mapSet, mem_mapKeys_labelFold, mapKeys_coreFields, hder]
    simp only [ne_eq, not_false_eq_true, true_and, reduceCtorEq]
    constructor
    · rintro (h | h | h)
      · exact Or.inr (Or.inr h)
      · exact Or.inl h
      · exact Or.inr (Or.inl h)
    · rintro (h | h | h)
      · exact Or.inr (Or.inl h)
      · exact Or.inr (Or.inr h)
      · exact Or.inl h

/-- Witness of C8: the keys of the sample record with the labels `gelf_foo` and
`other`, on a container with a cluster node. -/
theorem extraFields_keys_witness :
    extraFields sampleEnv (nodeRecord [(str "gelf_foo", str "v"), (str "other", str "w")])
        = some (mapSet (labelFold sampleEnv [(str "gelf_foo", str "v"), (str "other", str "w")]
            (coreFields sampleEnv
              (nodeRecord [(str "gelf_foo", str "v"), (str "other", str "w")]) (str "web")))
            (str "_swarm_node") (Value.str (str "n1"))) ∧
      mapKeys (mapSet (labelFold sampleEnv [(str "gelf_foo", str "v"), (str "other", str "w")]
          (coreFields sampleEnv
            (nodeRecord [(str "gelf_foo", str "v"), (str "other", str "w")]) (str "web")))
          (str "_swarm_node") (Value.str (str "n1")))
        = coreKeys ++ [str "_foo", str "_swarm_node"] ∧
      (mapKeys (mapSet (labelFold sampleEnv [(str "gelf_foo", str "v"), (str "other", str "w")]
          (coreFields sampleEnv
            (nodeRecord [(str "gelf_foo", str "v"), (str "other", str "w")]) (str "web")))
          (str "_swarm_node") (Value.str (str "n1")))).Nodup :=
  ⟨rfl, by decide,
    (extraFields_keys sampleEnv
      (nodeRecord [(str "gelf_foo", str "v"), (str "other", str "w")]) _ rfl
      (fun s hs hc => by
        have hs2 : isASCII (str "gelf_") = false := by
          rw [← hc]
          exact hs
        exact absurd hs2 (by decide))).2⟩

/-- C9, as stated, fails. The labels `GELF_x` and `gelf_x` are two keys of one
label map; visited in one order the map of extra fields holds `2` under `_x`,
visited in the other order it holds `1`. -/
theorem traversal_order_changes_fields :
    ([(str "GELF_x", str "1"), (str "gelf_x", str "2")].map Prod.fst).Nodup ∧
      [(str "gelf_x", str "2"), (str "GELF_x", str "1")].Perm
        [(str "GELF_x", str "1"), (str "gelf_x", str "2")] ∧
      fieldOf sampleEnv (sampleRecord [(str "GELF_x", str "1"), (str "gelf_x", str "2")])
        (str "_x") = some (Value.str (str "2")) ∧
      fieldOf sampleEnv
        (withLabels (sampleRecord [(str "GELF_x", str "1"), (str "gelf_x", str "2")])
          [(str "gelf_x", str "2"), (str "GELF_x", str "1")])
        (str "_x") = some (Value.str (str "1")) :=
  ⟨by decide, List.Perm.swap _ _ _, by decide, by decide⟩

/-- C9, amended. For a record, the host and environment values and the OS
hostname, `getExtraFields` aborts or not, and builds a map with the same value
under every key, whatever the order in which the label map is visited, provided
any two labels copied under the same key carry the same value. -/
theorem extraFields_order_independent (env : Env) (m : router.Message) (labels2 : Labels)
    (hnd : (m.Container.Config.Labels.map Prod.fst).Nodup)
    (hp : labels2.Perm m.Container.Config.Labels)
    (hagree : ∀ a ∈ m.Container.Config.Labels, ∀ b ∈ m.Container.Config.Labels,
      qualifies env a.1 = true → qualifies env b.1 = true →
      a.1.drop 4 = b.1.drop 4 → a.2 = b.2) :
    (extraFields env (withLabels m labels2)).map mapGet = (extraFields env m).map mapGet := by
  by_cases hne : m.Container.Name = []
  · have h2 : (withLabels m labels2).Container.Name = [] := hne
    rw [(extraFields_eq_none_iff env m).mpr hne,
      (extraFields_eq_none_iff env (withLabels m labels2)).mpr h2]
  · have h2 : (withLabels m labels2).Container.Name ≠ [] := hne
    have hcore : ∀ name, coreFields env (withLabels m labels2) name = coreFields env m name := by
      intro name
      have hl := labelGet_perm m.Container.Config.Labels labels2
        (str "io.rancher.stack_service.name") hnd hp
      simp only [coreFields, withLabels, hl]
    rw [extraFields_of_ne_nil env m hne, extraFields_of_ne_nil env (withLabels m labels2) h2, hcore]
    simp only [Option.map_some', Option.some.injEq]
    funext key
    have hfold := mapGet_labelFold_perm env m.Container.Config.Labels labels2
      (coreFields env m (m.Container.Name.drop 1)) key hp hagree
    show mapGet (match m.Container.Node with
        | some swarmnode =>
          mapSet (labelFold env labels2 (coreFields env m (m.Container.Name.drop 1)))
            (str "_swarm_node") (Value.str swarmnode.Name)
        | none => labelFold env labels2 (coreFields env m (m.Container.Name.drop 1))) key
      = _
    cases m.Container.Node with
    | none => exact hfold
    | some node => simp only [mapGet_mapSet, hfold]

/-- Witness of C9: the two orders of the labels `gelf_a` and `gelf_b` of the
sample record give the same map. -/
theorem extraFields_order_independent_witness :
    ([(str "gelf_a", str "1"), (str "gelf_b", str "2")].map Prod.fst).Nodup ∧
      [(str "gelf_b", str "2"), (str "gelf_a", str "1")].Perm
        [(str "gelf_a", str "1"), (str "gelf_b", str "2")] ∧
      (extraFields sampleEnv
          (withLabels (sampleRecord [(str "gelf_a", str "1"), (str "gelf_b", str "2")])
            [(str "gelf_b", str "2"), (str "gelf_a", str "1")])).map mapGet
        = (extraFields sampleEnv
            (sampleRecord [(str "gelf_a", str "1"), (str "gelf_b", str "2")])).map mapGet :=
  ⟨by decide, List.Perm.swap _ _ _,
    extraFields_order_independent sampleEnv
      (sampleRecord [(str "gelf_a", str "1"), (str "gelf_b", str "2")])
      [(str "gelf_b", str "2"), (str "gelf_a", str "1")]
      (by decide) (List.Perm.swap _ _ _) (by decide)⟩

/-- C10, as stated, fails. A captured time of 2300-01-01T00:00:00Z is
`10413792000000000000` nanoseconds after the epoch, a count `UnixNano` wraps to
a negative `int64`: the timestamp of the message is `-8032952073.709...`, not
`floor (n / 1000000) / 1000 = 10413792000`.  And the timestamp is a `float64`:
for 2020-01-02T03:04:05.678Z it is `1577934245.677999973297119140625`, not the
rational `1577934245.678`. -/
theorem timestamp_wraps_and_rounds :
    (buildMessage sampleEnv (recordAt 10413792000000000000)
        = Outcome.ok
          (sampleMessage (recordAt 10413792000000000000) (str "hello") gelf.LOG_INFO) ∧
      (0 : Int) ≤ (recordAt 10413792000000000000).Time.nanos ∧
      (sampleMessage (recordAt 10413792000000000000) (str "hello") gelf.LOG_INFO).TimeUnix
        = -526447547102593 / 65536 ∧
      ((⌊(((recordAt 10413792000000000000).Time.nanos : Int) : ℚ) / 1000000⌋ : ℤ) : ℚ) / 1000
        = 10413792000) ∧
    (buildMessage sampleEnv (sampleRecord [])
        = Outcome.ok (sampleMessage (sampleRecord []) (str "hello") gelf.LOG_INFO) ∧
      (sampleRecord []).Time.nanos = 1577934245678000000 ∧
      (sampleMessage (sampleRecord []) (str "hello") gelf.LOG_INFO).TimeUnix
        = 3309167959192109 / 2097152 ∧
      (sampleMessage (sampleRecord []) (str "hello") gelf.LOG_INFO).TimeUnix
        ≠ 1577934245678 / 1000) := by
  have h2020 : (sampleMessage (sampleRecord []) (str "hello") gelf.LOG_INFO).TimeUnix
      = 3309167959192109 / 2097152 := by
    have := TimeUnix_eq_2020 0 (by decide) (by decide)
    exact this
  refine ⟨⟨rfl, by decide, TimeUnix_eq_2300, ?_⟩, ⟨rfl, rfl, h2020, ?_⟩⟩
  · have hfl : ⌊(((recordAt 10413792000000000000).Time.nanos : Int) : ℚ) / 1000000⌋
        = 10413792000000 := by
      show ⌊((10413792000000000000 : Int) : ℚ) / 1000000⌋ = 10413792000000
      rw [Int.floor_eq_iff]
      constructor <;> norm_num
    rw [hfl]
    norm_num
  · rw [h2020]
    norm_num

/-- C10, amended. When `Stream` builds a message for a record whose captured
time is `n` nanoseconds after the epoch, with `0 <= n < 2 ^ 63`, the timestamp
of the message is the `float64` value nearest to `floor (n / 1000000) / 1000`:
it is a `float64` value, no `float64` value is nearer to that rational, and it
is the one the rounding to nearest with ties to even selects.  It differs from
that rational by at most `2 ^ (-20)`, so the milliseconds are kept, as the
integer nearest to a thousand times the timestamp, and what is below a
millisecond is discarded.  For a captured time of 2020-01-02T03:04:05.678Z
with any remainder below a millisecond the timestamp is the `float64` value
nearest to `1577934245.678`. -/
theorem timestamp_millis (env : Env) (m : router.Message) (msg : gelf.Message)
    (h : buildMessage env m = Outcome.ok msg) (hn : 0 ≤ m.Time.nanos)
    (hlt : m.Time.nanos < 9223372036854775808) :
    isFloat64 msg.TimeUnix ∧
      (∀ v, isFloat64 v →
        |msg.TimeUnix - ((⌊(m.Time.nanos : ℚ) / 1000000⌋ : ℤ) : ℚ) / 1000|
          ≤ |v - ((⌊(m.Time.nanos : ℚ) / 1000000⌋ : ℤ) : ℚ) / 1000|) ∧
      msg.TimeUnix = float64 (((⌊(m.Time.nanos : ℚ) / 1000000⌋ : ℤ) : ℚ) / 1000) ∧
      |msg.TimeUnix - ((⌊(m.Time.nanos : ℚ) / 1000000⌋ : ℤ) : ℚ) / 1000| ≤ 1 / 1048576 ∧
      roundHalfEven (msg.TimeUnix * 1000) = ⌊(m.Time.nanos : ℚ) / 1000000⌋ ∧
      (∀ r : Int, 0 ≤ r → r < 1000000 → m.Time.nanos = 1577934245678000000 + r →
        msg.TimeUnix = 3309167959192109 / 2097152) := by
  obtain ⟨extra, _, hmsg⟩ := (buildMessage_eq_ok_iff env m msg).mp h
  have ht : msg.TimeUnix = TimeUnix m.Time := by rw [hmsg]
  have hdiv : m.Time.nanos.tdiv Millisecond = m.Time.nanos / 1000000 :=
    Int.tdiv_eq_ediv hn (by decide)
  have hfloor : ⌊(m.Time.nanos : ℚ) / 1000000⌋ = m.Time.nanos / 1000000 := by
    have := Rat.floor_intCast_div_natCast m.Time.nanos 1000000
    simpa using this
  have hval : msg.TimeUnix = float64 (((m.Time.nanos / 1000000 : ℤ) : ℚ) / 1000) := by
    rw [ht, TimeUnix_of_range m.Time (by omega) hlt, hdiv]
  rw [hfloor]
  have hms0 : 0 ≤ m.Time.nanos / 1000000 := by omega
  have hms1 : m.Time.nanos / 1000000 < 9223372036855 := by omega
  have hq0 : (0 : ℚ) ≤ ((m.Time.nanos / 1000000 : ℤ) : ℚ) / 1000 :=
    div_nonneg (Int.cast_nonneg.mpr hms0) (by norm_num)
  have hq1 : ((m.Time.nanos / 1000000 : ℤ) : ℚ) / 1000 < 9223372037 := by
    have : ((m.Time.nanos / 1000000 : ℤ) : ℚ) < 9223372036855 := by exact_mod_cast hms1
    rw [div_lt_iff₀ (by norm_num)]
    linarith
  have habs : |((m.Time.nanos / 1000000 : ℤ) : ℚ) / 1000| < 9223372037 := by
    rwa [abs_of_nonneg hq0]
  have herr : |msg.TimeUnix - ((m.Time.nanos / 1000000 : ℤ) : ℚ) / 1000| ≤ 1 / 1048576 := by
    rw [hval]
    exact abs_float64_sub_le _ (lt_trans habs (by norm_num))
  refine ⟨?_, ?_, hval, herr, ?_, ?_⟩
  · rw [hval]
    exact isFloat64_float64 _ (lt_trans habs (by norm_num))
  · intro v hv
    rw [hval]
    exact abs_float64_sub_le_of_isFloat64 _ hv
  · apply roundHalfEven_eq_of_abs_lt
    have h1 : msg.TimeUnix * 1000 - ((m.Time.nanos / 1000000 : ℤ) : ℚ)
        = (msg.TimeUnix - ((m.Time.nanos / 1000000 : ℤ) : ℚ) / 1000) * 1000 := by ring
    rw [h1, abs_mul, abs_of_pos (by norm_num : (0 : ℚ) < 1000)]
    have : |msg.TimeUnix - ((m.Time.nanos / 1000000 : ℤ) : ℚ) / 1000| * 1000
        ≤ 1 / 1048576 * 1000 := mul_le_mul_of_nonneg_right herr (by norm_num)
    exact lt_of_le_of_lt this (by norm_num)
  · intro r hr0 hr1 hnr
    have hm : m.Time = { nanos := 1577934245678000000 + r } := by
      cases hmt : m.Time with
      | mk nanos =>
        rw [hmt] at hnr
        simp only at hnr
        rw [hnr]
    rw [ht, hm]
    exact TimeUnix_eq_2020 r hr0 hr1

/-- Witness of C10: the timestamp of the message built for the sample record,
captured at 2020-01-02T03:04:05.678Z. -/
theorem timestamp_millis_witness :
    buildMessage sampleEnv (sampleRecord [])
        = Outcome.ok (sampleMessage (sampleRecord []) (str "hello") gelf.LOG_INFO) ∧
      (0 : Int) ≤ (sampleRecord []).Time.nanos ∧
      (sampleRecord []).Time.nanos < 9223372036854775808 ∧
      (sampleMessage (sampleRecord []) (str "hello") gelf.LOG_INFO).TimeUnix
        = 3309167959192109 / 2097152 :=
  ⟨rfl, by decide, by decide,
    (timestamp_millis sampleEnv (sampleRecord []) _ rfl (by decide) (by decide)).2.2.2.2.2 0
      (by decide) (by decide) (by decide)⟩

/-- C11. When `Stream` builds a message for a record, the host of the message
is the value of the container label `io.rancher.container.name` when the label
map holds that label with a non-empty value, and is the resolved hostname of the
process when the label is absent and when its value is empty. -/
theorem buildMessage_host (env : Env) (m : router.Message) (msg : gelf.Message)
    (h : buildMessage env m = Outcome.ok msg)
    (hnd : (m.Container.Config.Labels.map Prod.fst).Nodup) :
    (∀ value, (str "io.rancher.container.name", value) ∈ m.Container.Config.Labels →
        value ≠ str "" → msg.Host = value) ∧
      ((str "io.rancher.container.name", str "") ∈ m.Container.Config.Labels →
        msg.Host = env.hostname) ∧
      (str "io.rancher.container.name" ∉ m.Container.Config.Labels.map Prod.fst →
        msg.Host = env.hostname) := by
  obtain ⟨extra, _, hmsg⟩ := (buildMessage_eq_ok_iff env m msg).mp h
  have hhost : msg.Host =
      if (labelGet m.Container.Config.Labels (str "io.rancher.container.name")).length = 0
      then env.hostname
      else labelGet m.Container.Config.Labels (str "io.rancher.container.name") := by
    rw [hmsg]
  rw [str_empty]
  refine ⟨?_, ?_, ?_⟩
  · intro value hmem hne
    rw [hhost, labelGet_of_mem _ _ value hnd hmem]
    have hlen : ¬ value.length = 0 := fun hc => hne (List.length_eq_zero.mp hc)
    simp [hlen]
  · intro hmem
    rw [hhost, labelGet_of_mem _ _ [] hnd hmem]
    simp
  · intro hnot
    rw [hhost, labelGet_of_not_mem _ _ hnot]
    simp

/-- Witness of C11: the sample record with the label
`io.rancher.container.name` set to `web-1` gives a message with host `web-1`. -/
theorem buildMessage_host_witness :
    buildMessage sampleEnv (sampleRecord [(str "io.rancher.container.name", str "web-1")])
        = Outcome.ok
          { sampleMessage (sampleRecord [(str "io.rancher.container.name", str "web-1")])
              (str "hello") gelf.LOG_INFO with Host := str "web-1" } ∧
      ([(str "io.rancher.container.name", str "web-1")].map Prod.fst).Nodup ∧
      ({ sampleMessage (sampleRecord [(str "io.rancher.container.name", str "web-1")])
          (str "hello") gelf.LOG_INFO with Host := str "web-1" } : gelf.Message).Host
        = str "web-1" :=
  ⟨rfl, by decide,
    (buildMessage_host sampleEnv (sampleRecord [(str "io.rancher.container.name", str "web-1")])
      _ rfl (by decide)).1 (str "web-1") (by decide) (by decide)⟩

/-- C12. On a record whose container carries a cluster node, the map that
`getExtraFields` produces holds the name of the node under `_swarm_node`,
whatever the labels of the container are, a label `gelf_swarm_node` included:
the assignment of source line 150 comes after the label loop. -/
theorem swarm_node_field (env : Env) (m : router.Message) (node : docker.SwarmNode)
    (extra : Fields) (hn : m.Container.Node = some node)
    (hx : extraFields env m = some extra) :
    mapGet extra (str "_swarm_node") = some (Value.str node.Name) := by
  have hne : m.Container.Name ≠ [] := fun hc => by
    rw [(extraFields_eq_none_iff env m).mpr hc] at hx
    exact Option.noConfusion hx
  rw [extraFields_of_ne_nil env m hne, hn] at hx
  simp only [Option.some.injEq] at hx
  rw [← hx, mapGet_mapSet]
  simp

/-- Witness of C12: on the sample container with the cluster node `n1` and the
label `gelf_swarm_node` set to `v`, the key `_swarm_node` holds `n1`. -/
theorem swarm_node_field_witness :
    (nodeRecord [(str "gelf_swarm_node", str "v")]).Container.Node = some { Name := str "n1" } ∧
      extraFields sampleEnv (nodeRecord [(str "gelf_swarm_node", str "v")])
        = some (mapSet (labelFold sampleEnv [(str "gelf_swarm_node", str "v")]
            (coreFields sampleEnv (nodeRecord [(str "gelf_swarm_node", str "v")]) (str "web")))
            (str "_swarm_node") (Value.str (str "n1"))) ∧
      mapGet (mapSet (labelFold sampleEnv [(str "gelf_swarm_node", str "v")]
          (coreFields sampleEnv (nodeRecord [(str "gelf_swarm_node", str "v")]) (str "web")))
          (str "_swarm_node") (Value.str (str "n1"))) (str "_swarm_node")
        = some (Value.str (str "n1")) :=
  ⟨rfl, rfl,
    swarm_node_field sampleEnv (nodeRecord [(str "gelf_swarm_node", str "v")])
      { Name := str "n1" } _ rfl rfl⟩

/-- C13. Whatever the two metadata queries and `os.Hostname()` return, `init`
runs to its end and registers the adapter.  The resolved environment is the
metadata response when the query returned no error and a non-empty body, and is
`-` otherwise, so it is never empty; the resolved host is the metadata response
when the query returned no error and a non-empty body, and is the hostname the
operating system reports otherwise. -/
theorem init_resolution (httpGet : GoString → HttpOutcome)
    (osHostname : GoString × Option GoString) :
    (∀ respBytes, httpGet (rancherBaseUrl ++ str "/latest/name") = HttpOutcome.body respBytes →
        respBytes ≠ str "" → (init httpGet osHostname).rancherEnvironment = respBytes) ∧
      ((∀ respBytes, httpGet (rancherBaseUrl ++ str "/latest/name") = HttpOutcome.body respBytes
          → respBytes = str "") → (init httpGet osHostname).rancherEnvironment = str "-") ∧
      (init httpGet osHostname).rancherEnvironment ≠ str "" ∧
      (∀ respBytes,
        httpGet (rancherBaseUrl ++ str "/latest/self/host/name") = HttpOutcome.body respBytes →
        respBytes ≠ str "" → (init httpGet osHostname).hostname = respBytes) ∧
      ((∀ respBytes,
          httpGet (rancherBaseUrl ++ str "/latest/self/host/name") = HttpOutcome.body respBytes
          → respBytes = str "") → (init httpGet osHostname).hostname = osHostname.1) ∧
      (init httpGet osHostname).factories = [str "gelf"] := by
  have hdash : str "-" ≠ [] := by decide
  rw [str_empty]
  refine ⟨?_, ?_, ?_, ?_, ?_, rfl⟩
  · intro respBytes hb hne
    simp [init, fromRancherMetadata, hb, str_empty, hne]
  · intro hall
    cases hb : httpGet (rancherBaseUrl ++ str "/latest/name") with
    | getError err => simp [init, fromRancherMetadata, hb]
    | readError err => simp [init, fromRancherMetadata, hb]
    | body respBytes =>
      have := hall respBytes hb
      simp [init, fromRancherMetadata, hb, str_empty, this]
  · cases hb : httpGet (rancherBaseUrl ++ str "/latest/name") with
    | getError err => simpa [init, fromRancherMetadata, hb] using hdash
    | readError err => simpa [init, fromRancherMetadata, hb] using hdash
    | body respBytes =>
      by_cases hne : respBytes = []
      · simpa [init, fromRancherMetadata, hb, str_empty, hne] using hdash
      · simp [init, fromRancherMetadata, hb, str_empty, hne]
  · intro respBytes hb hne
    simp [init, fromRancherMetadata, hb, str_empty, hne]
  · intro hall
    cases hb : httpGet (rancherBaseUrl ++ str "/latest/self/host/name") with
    | getError err => simp [init, fromRancherMetadata, hb]
    | readError err => simp [init, fromRancherMetadata, hb]
    | body respBytes =>
      have := hall respBytes hb
      simp [init, fromRancherMetadata, hb, str_empty, this]

/-- Witness of C13: with a metadata service that answers `host-7` for the host
name and cannot be reached for the environment name, the resolved host is
`host-7` and the resolved environment is `-`; with a service that cannot be
reached at all, the resolved host is the hostname `box` of the operating
system. -/
theorem init_resolution_witness :
    (init sampleHttp (str "box", none)).hostname = str "host-7" ∧
      (init sampleHttp (str "box", none)).rancherEnvironment = str "-" ∧
      (init downHttp (str "box", none)).hostname = str "box" ∧
      (init downHttp (str "box", none)).factories = [str "gelf"] :=
  ⟨(init_resolution sampleHttp (str "box", none)).2.2.2.1 (str "host-7") (by decide)
      (by decide),
    (init_resolution sampleHttp (str "box", none)).2.1 (fun _ hb => by
      have hs : sampleHttp (rancherBaseUrl ++ str "/latest/name")
          = HttpOutcome.getError (str "dial tcp: i/o timeout") := by decide
      rw [hs] at hb
      exact HttpOutcome.noConfusion hb),
    (init_resolution downHttp (str "box", none)).2.2.2.2.1 (fun _ hb =>
      HttpOutcome.noConfusion hb),
    (init_resolution downHttp (str "box", none)).2.2.2.2.2⟩

/-- C15. When `router.AdapterTransports.Lookup` does not find the transport the
route asks for, `udp` being asked for by a route that names none,
`NewGelfAdapter` returns the error `unable to find adapter: ` followed by the
adapter string and a `nil` adapter, and it does not call `gelf.NewWriter`. -/
theorem NewGelfAdapter_unknown_transport (lib : Libraries) (route : router.Route)
    (h : lib.Lookup (route.AdapterTransport (str "udp")) = false) :
    (NewGelfAdapter lib route).err = some (str "unable to find adapter: " ++ route.Adapter) ∧
      (NewGelfAdapter lib route).adapter.isNone = true ∧
      (NewGelfAdapter lib route).opened = [] := by
  simp [NewGelfAdapter, h]

/-- Witness of C15: the route `gelf+tls` asks for the transport `tls`, which the
sample router does not know; a route `gelf` asks for `udp`. -/
theorem NewGelfAdapter_unknown_transport_witness :
    router.Route.AdapterTransport { Adapter := str "gelf+tls", Address := str "graylog:12201" }
        (str "udp") = str "tls" ∧
      router.Route.AdapterTransport { Adapter := str "gelf", Address := str "graylog:12201" }
        (str "udp") = str "udp" ∧
      (NewGelfAdapter sampleLibraries
          { Adapter := str "gelf+tls", Address := str "graylog:12201" }).err
        = some (str "unable to find adapter: gelf+tls") ∧
      (NewGelfAdapter sampleLibraries
          { Adapter := str "gelf+tls", Address := str "graylog:12201" }).adapter.isNone = true ∧
      (NewGelfAdapter sampleLibraries
          { Adapter := str "gelf+tls", Address := str "graylog:12201" }).opened = [] := by
  have hw := NewGelfAdapter_unknown_transport sampleLibraries
    { Adapter := str "gelf+tls", Address := str "graylog:12201" } (by decide)
  refine ⟨by decide, by decide, ?_, hw.2.1, hw.2.2⟩
  rw [hw.1]
  decide

/-- C14 (defect of the code, the one of C1). The enrichment of the record of a
container created in the year 10000 fails with an error, and `Stream` on that
record alone writes one log line for it.  After a record with an empty
container name `Stream` writes no log line for it: the run has ended in the
panic of the first record, which itself leaves no log line. -/
theorem Stream_logs_nothing_after_panic :
    enrichmentFails strictEnv lateRecord = true ∧
      (GelfAdapter.Stream strictEnv sampleAdapter [lateRecord] Run.start).logs
        = [logLine (str "Time.MarshalJSON: year outside of range [0,9999]")] ∧
      (GelfAdapter.Stream strictEnv sampleAdapter
        [recordNamed (str "") [], lateRecord] Run.start).logs = [] ∧
      (GelfAdapter.Stream strictEnv sampleAdapter
        [recordNamed (str "") [], lateRecord] Run.start).panicked = true := by
  decide

/-- C16. When `getExtraFields` produces its map, every key of the map begins
with the underscore character; in particular the key of every copied label
does, because the fifth byte of its name is `_`.  The hypothesis on
`unicodeLower` is a fact about `strings.ToLower`: its Unicode branch does not
produce `gelf_`. -/
theorem keys_begin_with_underscore (env : Env) (m : router.Message) (extra : Fields)
    (hx : extraFields env m = some extra)
    (hU : ∀ s, isASCII s = false → env.unicodeLower s ≠ str "gelf_") :
    (∀ key ∈ mapKeys extra, beginsWithUnderscore key) ∧
      (∀ nl ∈ m.Container.Config.Labels, qualifies env nl.1 = true →
        beginsWithUnderscore (nl.1.drop 4)) := by
  have hcore : ∀ key ∈ coreKeys, beginsWithUnderscore key := by
    intro key hkey
    simp only [coreKeys, List.mem_cons, List.mem_singleton, List.not_mem_nil, or_false] at hkey
    rcases hkey with h | h | h | h | h | h | h | h | h | h | h <;>
      exact ⟨key.drop 1, by rw [h]; decide⟩
  have hlabel : ∀ nl ∈ m.Container.Config.Labels, qualifies env nl.1 = true →
      beginsWithUnderscore (nl.1.drop 4) :=
    fun nl _ hq => drop_four_of_qualifies env nl.1 hU hq
  refine ⟨?_, hlabel⟩
  intro key hkey
  rcases (mem_mapKeys_extraFields env m extra hx key).mp hkey with h | h | h
  · exact hcore key h
  · obtain ⟨nl, hnl, hq, hk⟩ := h
    rw [← hk]
    exact hlabel nl hnl hq
  · exact ⟨(str "_swarm_node").drop 1, by rw [h.2]; decide⟩

/-- Witness of C16: the keys of the sample record with the labels `GELF_foo` and
`other`, on a container with a cluster node, all begin with `_`. -/
theorem keys_begin_with_underscore_witness :
    extraFields sampleEnv (nodeRecord [(str "GELF_foo", str "v"), (str "other", str "w")])
        = some (mapSet (labelFold sampleEnv [(str "GELF_foo", str "v"), (str "other", str "w")]
            (coreFields sampleEnv
              (nodeRecord [(str "GELF_foo", str "v"), (str "other", str "w")]) (str "web")))
            (str "_swarm_node") (Value.str (str "n1"))) ∧
      str "_foo" ∈ mapKeys (mapSet
          (labelFold sampleEnv [(str "GELF_foo", str "v"), (str "other", str "w")]
            (coreFields sampleEnv
              (nodeRecord [(str "GELF_foo", str "v"), (str "other", str "w")]) (str "web")))
          (str "_swarm_node") (Value.str (str "n1"))) ∧
      ∀ key ∈ mapKeys (mapSet
          (labelFold sampleEnv [(str "GELF_foo", str "v"), (str "other", str "w")]
            (coreFields sampleEnv
              (nodeRecord [(str "GELF_foo", str "v"), (str "other", str "w")]) (str "web")))
          (str "_swarm_node") (Value.str (str "n1"))), beginsWithUnderscore key :=
  ⟨rfl, by decide,
    (keys_begin_with_underscore sampleEnv
      (nodeRecord [(str "GELF_foo", str "v"), (str "other", str "w")]) _ rfl
      (fun s hs hc => by
        have hs2 : isASCII (str "gelf_") = false := by
          rw [← hc]
          exact hs
        exact absurd hs2 (by decide))).1⟩

/-- C17, as stated, fails. The captured times 2020-01-02T03:04:05.678Z and
2300-01-01T00:00:00Z have the nanosecond counts `1577934245678000000` and
`10413792000000000000`, in this order, but `UnixNano` wraps the second to a
negative `int64`, so the second timestamp is below the first. -/
theorem timestamp_order_inverted :
    buildMessage sampleEnv (recordAt 1577934245678000000)
        = Outcome.ok
          (sampleMessage (recordAt 1577934245678000000) (str "hello") gelf.LOG_INFO) ∧
      buildMessage sampleEnv (recordAt 10413792000000000000)
        = Outcome.ok
          (sampleMessage (recordAt 10413792000000000000) (str "hello") gelf.LOG_INFO) ∧
      (recordAt 1577934245678000000).Time.nanos ≤ (recordAt 10413792000000000000).Time.nanos ∧
      (sampleMessage (recordAt 10413792000000000000) (str "hello") gelf.LOG_INFO).TimeUnix
        < (sampleMessage (recordAt 1577934245678000000) (str "hello") gelf.LOG_INFO).TimeUnix := by
  refine ⟨rfl, rfl, by decide, ?_⟩
  have h1 : (sampleMessage (recordAt 1577934245678000000) (str "hello") gelf.LOG_INFO).TimeUnix
      = 3309167959192109 / 2097152 := by
    have := TimeUnix_eq_2020 0 (by decide) (by decide)
    exact this
  have h2 : (sampleMessage (recordAt 10413792000000000000) (str "hello") gelf.LOG_INFO).TimeUnix
      = -526447547102593 / 65536 := TimeUnix_eq_2300
  rw [h1, h2]
  norm_num

/-- C17, amended. The timestamp is monotone in the captured time on the range
in which `UnixNano` does not wrap: when `Stream` builds messages for two
records whose nanosecond counts are `-2 ^ 63 <= n1 <= n2 < 2 ^ 63`, of either
sign, the `float64` timestamp of the first message is at most that of the
second; the division by `1000000` truncates toward zero and the `float64`
division rounds to nearest. -/
theorem timestamp_monotone (env : Env) (m1 m2 : router.Message) (msg1 msg2 : gelf.Message)
    (h1 : buildMessage env m1 = Outcome.ok msg1) (h2 : buildMessage env m2 = Outcome.ok msg2)
    (hlo : -9223372036854775808 ≤ m1.Time.nanos)
    (hle : m1.Time.nanos ≤ m2.Time.nanos)
    (hhi : m2.Time.nanos < 9223372036854775808) : msg1.TimeUnix ≤ msg2.TimeUnix := by
  obtain ⟨_, _, hmsg1⟩ := (buildMessage_eq_ok_iff env m1 msg1).mp h1
  obtain ⟨_, _, hmsg2⟩ := (buildMessage_eq_ok_iff env m2 msg2).mp h2
  rw [hmsg1, hmsg2]
  exact TimeUnix_mono_of_range _ _ hlo hle hhi

/-- Witness of C17: the records captured 1500000 nanoseconds before the epoch
and 999999 nanoseconds after it. -/
theorem timestamp_monotone_witness :
    buildMessage sampleEnv (recordAt (-1500000))
        = Outcome.ok (sampleMessage (recordAt (-1500000)) (str "hello") gelf.LOG_INFO) ∧
      buildMessage sampleEnv (recordAt 999999)
        = Outcome.ok (sampleMessage (recordAt 999999) (str "hello") gelf.LOG_INFO) ∧
      -9223372036854775808 ≤ (recordAt (-1500000)).Time.nanos ∧
      (recordAt (-1500000)).Time.nanos ≤ (recordAt 999999).Time.nanos ∧
      (recordAt 999999).Time.nanos < 9223372036854775808 ∧
      (sampleMessage (recordAt (-1500000)) (str "hello") gelf.LOG_INFO).TimeUnix
        ≤ (sampleMessage (recordAt 999999) (str "hello") gelf.LOG_INFO).TimeUnix :=
  ⟨rfl, rfl, by decide, by decide, by decide,
    timestamp_monotone sampleEnv (recordAt (-1500000)) (recordAt 999999) _ _ rfl rfl
      (by decide) (by decide) (by decide)⟩

end Gelf
